import Mathlib

/-!
# envi: verification of the encrypted environment file library

A shallow embedding of `internal/envi.go`, `envi.go` and `envi-cli/cmd.go`.

Conventions of the embedding:

* a Go `string` holding an environment variable name or value is the list of
  its bytes (`GoString`), so that `<` is the byte-wise comparison Go performs;
  paths, key identifiers and error texts, which the code only passes around or
  compares for equality, are Lean strings;
* a Go pointer that may be nil is an `Option`;
* a Go function that may panic returns `Run`; a slice of pointers is a list of
  `Option`, and reading a field through a nil pointer is `Run.panic`;
* the process environment, the file system and the open file descriptors are
  explicit state; calls into libraries the repository does not contain (the
  key-management client, the YAML codec, the editor process, `deferror`) are
  fields of the record `Ext`, over which every theorem quantifies.
-/

namespace EnviGo

/-! ## Basic types -/

/-- A Go `string`, as its sequence of bytes. -/
abbrev GoString := List Nat

/-- A Go `[]byte`. -/
abbrev Bytes := List Nat

/-- Go `a < b` on strings: the first differing byte decides, and a proper
prefix is smaller. -/
def strLess : GoString → GoString → Bool
  | [], [] => false
  | [], _ :: _ => true
  | _ :: _, [] => false
  | a :: as, b :: bs => if a < b then true else if b < a then false else strLess as bs

/-- Go `error` values. `errResourceID` and `errorAlreadyInitialized` are the two
package-level sentinels; `lib` is an error value produced by the operating
system or by a library; `errorf` and `wrap` are `fmt.Errorf` without and with
an error argument. -/
inductive Error where
  | errResourceID
  | errorAlreadyInitialized
  | lib (msg : String)
  | errorf (text : String)
  | wrap (text : String) (cause : Error)
deriving DecidableEq, Repr

/-- Outcome of a Go call: it returns a value or it panics. -/
inductive Run (α : Type) where
  | ret (a : α)
  | panic
deriving DecidableEq, Repr

/-! ## Data model (`internal/envi.go`, lines 19-81) -/

/-- The type `Environment` is `type Environment string`. -/
abbrev Environment := String

/-- Constant `Production`. -/
def Production : Environment := "production"

/-- Constant `Developer`. -/
def Developer : Environment := "developer"

/-- Constant `Filename`. -/
def Filename : String := "envi.yaml"

/-- Constant `maxDepth`. -/
def maxDepth : Nat := 100

/-- Struct `EnvVariable`. -/
structure EnvVariable where
  Name : GoString
  Value : GoString
deriving DecidableEq, Repr

/-- Struct `Env`: the two variable lists. The slices are `[]*EnvVariable`: an
entry may be nil, as the decoder leaves it for an empty item. -/
structure Env where
  Production : List (Option EnvVariable)
  Developer : List (Option EnvVariable)
deriving DecidableEq, Repr

/-- Struct `Envi`: it embeds `*Env`, which is nil in `&Envi{}`. -/
structure Envi where
  Env : Option Env
deriving DecidableEq, Repr

/-- Function `NewEnvi`: one placeholder entry with empty name and value in each
list. -/
def NewEnvi : Envi :=
  { Env := some { Production := [some { Name := [], Value := [] }],
                  Developer := [some { Name := [], Value := [] }] } }

/-! ## The process environment (`os.Getenv`, `os.Setenv`) -/

/-- The process environment: the value of each variable that is set. -/
abbrev Environ := GoString → Option GoString

/-- Go `os.LookupEnv`: the empty key is never found. -/
def LookupEnv (env : Environ) (key : GoString) : Option GoString :=
  if key.length = 0 then none else env key

/-- Go `os.Getenv`: the value, or the empty string when the variable is not
set. -/
def Getenv (env : Environ) (key : GoString) : GoString :=
  (LookupEnv env key).getD []

/-- The error `os.Setenv` returns for a key or value it rejects. -/
def EINVAL : Error := Error.lib "setenv: invalid argument"

/-- Go `os.Setenv` (Unix): the key must be non-empty and free of the bytes
`=` (61) and NUL, the value free of NUL; otherwise the call fails with
`EINVAL` and changes nothing. -/
def Setenv (env : Environ) (key value : GoString) : Option Error × Environ :=
  if key.length = 0 then (some EINVAL, env)
  else if key.any (fun b => b == 61 || b == 0) then (some EINVAL, env)
  else if value.any (fun b => b == 0) then (some EINVAL, env)
  else (none, fun k => if k = key then some value else env k)

/-! ## Export (`internal/envi.go`, lines 138-144 and 195-219) -/

/-- Function `exportEnviVariables`: the loop over the entries; an entry whose
variable reads back non-empty is skipped, the first failing `os.Setenv` ends
the loop, and `v.Name` on a nil entry panics. -/
def exportEnviVariables : List (Option EnvVariable) → Environ → Run (Option Error × Environ)
  | [], env => Run.ret (none, env)
  | none :: _, _ => Run.panic
  | some v :: vars, env =>
    if (Getenv env v.Name).length > 0 then exportEnviVariables vars env
    else
      match Setenv env v.Name v.Value with
      | (some err, env1) => Run.ret (some err, env1)
      | (none, env1) => exportEnviVariables vars env1

/-- The `switch` of `exportEnviEnvironment`: `envVariables` stays nil for an
identifier that is neither constant; reading a list through a nil `Env`
panics. -/
def selectVars (env : Environment) (envi : Envi) : Run (List (Option EnvVariable)) :=
  if env = Production then
    match envi.Env with
    | none => Run.panic
    | some e => Run.ret e.Production
  else if env = Developer then
    match envi.Env with
    | none => Run.panic
    | some e => Run.ret e.Developer
  else Run.ret []

/-- Function `exportEnviEnvironment`. -/
def exportEnviEnvironment (env : Environment) (envi : Envi) (st : Environ) :
    Run (List (Option EnvVariable) × Option Error × Environ) :=
  match selectVars env envi with
  | Run.panic => Run.panic
  | Run.ret envVariables =>
    match exportEnviVariables envVariables st with
    | Run.panic => Run.panic
    | Run.ret (some err, st1) => Run.ret (envVariables, some err, st1)
    | Run.ret (none, st1) => Run.ret (envVariables, none, st1)

/-- Method `(*Envi).ExportVars`: the receiver may be nil. -/
def ExportVars (envi : Option Envi) (environment : Environment) (st : Environ) :
    Run (Option Error × Environ) :=
  match envi with
  | some e =>
    match exportEnviEnvironment environment e st with
    | Run.panic => Run.panic
    | Run.ret (_, err, st1) => Run.ret (err, st1)
  | none => Run.ret (none, st)

/-! ## Sorting (`internal/envi.go`, lines 146-153 and 289-294) -/

/-- The closure handed to `sort.Slice`: `e[i].Name < e[j].Name`, which panics
when either entry is nil. -/
def lessName (a b : Option EnvVariable) : Run Bool :=
  match a, b with
  | some u, some v => Run.ret (strLess u.Name v.Name)
  | _, _ => Run.panic

/-- Inner loop of the library's insertion sort
(`for j := i; j > a && less(j, j-1); j--` around `swap(j, j-1)`): the element
`x` moves left while it is less than its left neighbour. The part already
sorted is given nearest neighbour first. -/
def sinkLeft {α : Type} (less : α → α → Run Bool) (x : α) : List α → Run (List α)
  | [] => Run.ret [x]
  | y :: ys =>
    match less x y with
    | Run.panic => Run.panic
    | Run.ret false => Run.ret (x :: y :: ys)
    | Run.ret true =>
      match sinkLeft less x ys with
      | Run.panic => Run.panic
      | Run.ret r => Run.ret (y :: r)

/-- Outer loop of the library's insertion sort: the elements still to come,
and the part already sorted, nearest neighbour first. -/
def insertionSort {α : Type} (less : α → α → Run Bool) : List α → List α → Run (List α)
  | [], acc => Run.ret acc.reverse
  | x :: rest, acc =>
    match sinkLeft less x acc with
    | Run.panic => Run.panic
    | Run.ret acc1 => insertionSort less rest acc1

/-- Go `sort.Slice(e, less)`. On a slice of at most 12 elements the library
runs the insertion sort above. On a longer slice it runs another algorithm,
which is not stable: the order it leaves is the one `pick` names, provided
that is what the library documents, a rearrangement of the slice in which no
element is less than an earlier one (any other answer of `pick` is ignored).
Every element of a slice of two or more takes part in a comparison under
either algorithm, so the call panics on a longer slice exactly when the
insertion sort does. -/
def sortSlice {α : Type} [DecidableEq α] (pick : List α → List α)
    (less : α → α → Run Bool) (e : List α) : Run (List α) :=
  match insertionSort less e [] with
  | Run.panic => Run.panic
  | Run.ret sorted =>
    if e.length ≤ 12 then Run.ret sorted
    else if (pick e).Perm e ∧ (pick e).Pairwise (fun a b => less b a = Run.ret false) then
      Run.ret (pick e)
    else Run.ret sorted

/-! ## CRC32C (`hash/crc32` with the Castagnoli polynomial) -/

/-- One bit of the reflected CRC: shift right, and xor the polynomial
`0x82F63B78` in when the bit shifted out is set. -/
def crcBit (crc : Nat) : Nat :=
  if crc % 2 = 1 then (crc >>> 1) ^^^ 0x82F63B78 else crc >>> 1

/-- One byte of input. -/
def crcByte (crc b : Nat) : Nat :=
  crcBit (crcBit (crcBit (crcBit (crcBit (crcBit (crcBit (crcBit (crc ^^^ b))))))))

/-- The closure `crc32c` of `decryptSymmetric` and `encryptSymmetric`:
`crc32.Checksum(data, crc32.MakeTable(crc32.Castagnoli))`, a `uint32`. -/
def crc32c (data : Bytes) : Nat :=
  ((data.foldl crcByte 0xFFFFFFFF) ^^^ 0xFFFFFFFF) % 2 ^ 32

/-! ## The key-management service -/

/-- The fields of `kmspb.DecryptRequest` the code fills. -/
structure DecryptRequest where
  Name : String
  Ciphertext : Bytes
  CiphertextCrc32C : Int
deriving DecidableEq, Repr

/-- The fields of `kmspb.DecryptResponse` the code reads. The checksum is a
`*wrapperspb.Int64Value`: nil when the response does not carry the field. -/
structure DecryptResponse where
  Plaintext : Bytes
  PlaintextCrc32C : Option Int
deriving DecidableEq, Repr

/-- The fields of `kmspb.EncryptRequest` the code fills. -/
structure EncryptRequest where
  Name : String
  Plaintext : Bytes
  PlaintextCrc32C : Int
deriving DecidableEq, Repr

/-- The fields of `kmspb.EncryptResponse` the code reads. The checksum is a
`*wrapperspb.Int64Value`: nil when the response does not carry the field. -/
structure EncryptResponse where
  Ciphertext : Bytes
  CiphertextCrc32C : Option Int
  VerifiedPlaintextCrc32C : Bool
deriving DecidableEq, Repr

/-- Everything the code obtains from outside the repository. Each field is
what one library call answers; the theorems hold for every value of the
record. -/
structure Ext where
  /-- The package variable `resourceID`, `os.Getenv("ENVI_RESOURCE_ID")` at start-up. -/
  resourceID : String
  /-- The value `path.Join(path.Dir(b))` for the file `b` that `runtime.Caller(1)` reports. -/
  callerDir : String
  /-- Go `path.Join` (and `filepath.Join`) of two elements. -/
  pathJoin : String → String → String
  /-- Go `os.TempDir()`. -/
  tempDir : String
  /-- Result of `kms.NewKeyManagementClient`: the error, if any. -/
  newClient : Option String
  /-- Result of `client.Decrypt`. -/
  kmsDecrypt : DecryptRequest → Except String DecryptResponse
  /-- Result of `client.Encrypt`. -/
  kmsEncrypt : EncryptRequest → Except String EncryptResponse
  /-- Result of `yaml.Marshal` on a document. -/
  yamlMarshal : Envi → Except String Bytes
  /-- Result of `yaml.Unmarshal(data, envi)`: the error, if any, and the document as the call leaves it. -/
  yamlUnmarshal : Bytes → Envi → Option String × Envi
  /-- Whether the operating-system call made at a given tick fails, and with what. -/
  faults : Nat → Option String
  /-- Go `runtime.GOOS`. -/
  goos : String
  /-- Result of `cmd.Run()` for the editor: the error, if any, and the temporary file as the editor leaves it. -/
  editorRun : Option Bytes → Option String × Option Bytes
  /-- What `deferror.As(f, &err)` stores in `err`, from the result of `f` and the present `err`. -/
  deferrorAs : Option Error → Option Error → Option Error
  /-- The order in which `sort.Slice` leaves a slice of more than 12 entries. -/
  sortPick : List (Option EnvVariable) → List (Option EnvVariable)

/-- Function `sortVars`: `sort.Slice` with `e[i].Name < e[j].Name`. -/
def sortVars (x : Ext) (e : List (Option EnvVariable)) : Run (List (Option EnvVariable)) :=
  sortSlice x.sortPick lessName e

/-- Method `(*Envi).sortVars`: sorts the list the identifier selects, in
place; reading the list through a nil `Env` panics. -/
def Envi.sortVars (x : Ext) (envi : Envi) (environment : Environment) : Run Envi :=
  if environment = Production then
    match envi.Env with
    | none => Run.panic
    | some e =>
      match EnviGo.sortVars x e.Production with
      | Run.panic => Run.panic
      | Run.ret l => Run.ret { Env := some { e with Production := l } }
  else if environment = Developer then
    match envi.Env with
    | none => Run.panic
    | some e =>
      match EnviGo.sortVars x e.Developer with
      | Run.panic => Run.panic
      | Run.ret l => Run.ret { Env := some { e with Developer := l } }
  else Run.ret envi

/-! ## Encryption and decryption (`internal/envi.go`, lines 221-287) -/

/-- Function `decryptSymmetric`. What it returns is the Go pair
`([]byte, error)`; reading `.Value` through a nil `PlaintextCrc32C` panics. -/
def decryptSymmetric (x : Ext) (name : String) (ciphertext : Bytes) :
    Run (Option Bytes × Option Error) :=
  match x.newClient with
  | some err =>
    Run.ret (none, some (Error.wrap "failed to create kms client: %v" (Error.lib err)))
  | none =>
    let ciphertextCRC32C := crc32c ciphertext
    let req : DecryptRequest :=
      { Name := name, Ciphertext := ciphertext, CiphertextCrc32C := (ciphertextCRC32C : Int) }
    match x.kmsDecrypt req with
    | Except.error err =>
      Run.ret (none, some (Error.wrap "failed to decrypt ciphertext: %v" (Error.lib err)))
    | Except.ok result =>
      match result.PlaintextCrc32C with
      | none => Run.panic
      | some value =>
        if ((crc32c result.Plaintext : Nat) : Int) ≠ value then
          Run.ret (none, some (Error.errorf "decrypt: response corrupted in-transit"))
        else Run.ret (some result.Plaintext, none)

/-- Function `encryptSymmetric`. The flag is tested first; reading `.Value`
through a nil `CiphertextCrc32C` panics. -/
def encryptSymmetric (x : Ext) (name : String) (message : Bytes) :
    Run (Option Bytes × Option Error) :=
  match x.newClient with
  | some err =>
    Run.ret (none, some (Error.wrap "failed to create kms client: %v" (Error.lib err)))
  | none =>
    let plaintext := message
    let plaintextCRC32C := crc32c plaintext
    let req : EncryptRequest :=
      { Name := name, Plaintext := plaintext, PlaintextCrc32C := (plaintextCRC32C : Int) }
    match x.kmsEncrypt req with
    | Except.error err =>
      Run.ret (none, some (Error.wrap "failed to encrypt: %v" (Error.lib err)))
    | Except.ok result =>
      if result.VerifiedPlaintextCrc32C = false then
        Run.ret (none, some (Error.errorf "encrypt: request corrupted in-transit"))
      else
        match result.CiphertextCrc32C with
        | none => Run.panic
        | some value =>
          if ((crc32c result.Ciphertext : Nat) : Int) ≠ value then
            Run.ret (none, some (Error.errorf "encrypt: response corrupted in-transit"))
          else Run.ret (some result.Ciphertext, none)

/-- Method `(*Envi).Marshal`. -/
def Envi.Marshal (x : Ext) (envi : Envi) : Run (Option Bytes × Option Error) :=
  if x.resourceID.length = 0 then Run.ret (none, some Error.errResourceID)
  else
    match x.yamlMarshal envi with
    | Except.error err => Run.ret (none, some (Error.lib err))
    | Except.ok data => encryptSymmetric x x.resourceID data

/-! ## Files -/

/-- An `*os.File`: the descriptor and the name it was opened under. -/
structure File where
  fd : Nat
  name : String
deriving DecidableEq, Repr

/-- Ghost record of two events of a run: a call of `Save`, and a failure to
decode the temporary file that `edit` read back. -/
inductive Event where
  | save
  | decodeFailed (msg : String)
deriving DecidableEq, Repr

/-- The state outside the process memory: the contents of the files, the
descriptors that are open, the next descriptor to hand out, and the number of
operating-system calls made so far (the index into `Ext.faults`). The last
field is the ghost record of events; no definition reads it. -/
structure World where
  files : String → Option Bytes
  opened : List Nat
  nextFd : Nat
  clock : Nat
  trace : List Event

/-- Error of a call on a missing file. -/
def ENOENT : Error := Error.lib "no such file or directory"

/-- Go `os.ErrClosed`, the error of a call on a closed file. -/
def ErrClosed : Error := Error.lib "file already closed"

/-- One operating-system call is made: the oracle is asked and the clock advances. -/
def World.tick (w : World) : World := { w with clock := w.clock + 1 }

/-- Go `os.Stat`, and the `fs.Stat` of `Load`: succeeds exactly on a path that exists. -/
def osStat (w : World) (name : String) : Option Error :=
  match w.files name with
  | some _ => none
  | none => some ENOENT

/-- Go `os.OpenFile(name, os.O_RDWR, _)` and `os.Open(name)`: a new descriptor
on an existing file. -/
def osOpenFile (x : Ext) (w : World) (name : String) : World × Except Error File :=
  match x.faults w.clock with
  | some e => (w.tick, Except.error (Error.lib e))
  | none =>
    match w.files name with
    | none => (w.tick, Except.error ENOENT)
    | some _ =>
      ({ w.tick with opened := w.nextFd :: w.opened, nextFd := w.nextFd + 1 },
        Except.ok { fd := w.nextFd, name := name })

/-- Go `os.Create(name)`: the file is created or truncated, and opened. -/
def osCreate (x : Ext) (w : World) (name : String) : World × Except Error File :=
  match x.faults w.clock with
  | some e => (w.tick, Except.error (Error.lib e))
  | none =>
    ({ w.tick with files := fun p => if p = name then some [] else w.files p,
                   opened := w.nextFd :: w.opened, nextFd := w.nextFd + 1 },
      Except.ok { fd := w.nextFd, name := name })

/-- Go `ioutil.ReadAll(f)`: the whole content of the file. -/
def ioReadAll (x : Ext) (w : World) (f : File) : World × Option Bytes × Option Error :=
  if f.fd ∈ w.opened then
    match x.faults w.clock with
    | some e => (w.tick, none, some (Error.lib e))
    | none => (w.tick, some ((w.files f.name).getD []), none)
  else (w, none, some ErrClosed)

/-- Go `f.Write(b)` on a file just created: the bytes are appended. -/
def fileWrite (x : Ext) (w : World) (f : File) (b : Bytes) : World × Option Error :=
  if f.fd ∈ w.opened then
    match x.faults w.clock with
    | some e => (w.tick, some (Error.lib e))
    | none =>
      ({ w.tick with files := fun p => if p = f.name then some ((w.files p).getD [] ++ b) else w.files p },
        none)
  else (w, some ErrClosed)

/-- Go `f.Truncate(0)`. -/
def fileTruncate (x : Ext) (w : World) (f : File) : World × Option Error :=
  if f.fd ∈ w.opened then
    match x.faults w.clock with
    | some e => (w.tick, some (Error.lib e))
    | none => ({ w.tick with files := fun p => if p = f.name then some [] else w.files p }, none)
  else (w, some ErrClosed)

/-- Go `f.WriteAt(b, 0)`: the bytes replace the start of the file. -/
def fileWriteAt (x : Ext) (w : World) (f : File) (b : Bytes) : World × Option Error :=
  if f.fd ∈ w.opened then
    match x.faults w.clock with
    | some e => (w.tick, some (Error.lib e))
    | none =>
      ({ w.tick with files := fun p =>
          if p = f.name then some (b ++ ((w.files p).getD []).drop b.length) else w.files p },
        none)
  else (w, some ErrClosed)

/-- Go `f.Sync()`: no change of content; the code never acts on its result. -/
def fileSync (_x : Ext) (w : World) (f : File) : World :=
  if f.fd ∈ w.opened then w.tick else w

/-- Go `f.Close()`: the descriptor is released, also when the call reports an
error; closing a closed file fails with `ErrClosed`. -/
def fileClose (x : Ext) (w : World) (f : File) : World × Option Error :=
  if f.fd ∈ w.opened then
    ({ w.tick with opened := w.opened.erase f.fd }, (x.faults w.clock).map Error.lib)
  else (w, some ErrClosed)

/-- Go `os.Remove(name)`. -/
def osRemove (x : Ext) (w : World) (name : String) : World × Option Error :=
  match x.faults w.clock with
  | some e => (w.tick, some (Error.lib e))
  | none =>
    match w.files name with
    | none => (w.tick, some ENOENT)
    | some _ => ({ w.tick with files := fun p => if p = name then none else w.files p }, none)

/-! ## Load (`internal/envi.go`, lines 83-113 and 176-193) -/

/-- The search loop of `Load` (lines 91-99), with `n` iterations left:
`envDir` is the directory to try, the result is `enviFile` together with the
paths handed to `fs.Stat`, in order. When the iterations run out `enviFile`
keeps its initial value `Filename`. -/
def searchLoop (stat : String → Option Error) (join : String → String → String) :
    Nat → String → List String → String × List String
  | 0, _, checked => (Filename, checked)
  | n + 1, envDir, checked =>
    match stat (join envDir Filename) with
    | some _ => searchLoop stat join n (join envDir "..") (checked ++ [join envDir Filename])
    | none => (join envDir Filename, checked ++ [join envDir Filename])

/-- Lines 87-99 of `Load`: the file the search settles on, and the paths it
checked. -/
def locate (stat : String → Option Error) (join : String → String → String)
    (envDir : String) : String × List String :=
  searchLoop stat join maxDepth envDir []

/-- Function `readFile`. The result is the Go triple `([]byte, *os.File, error)`. -/
def readFile (x : Ext) (w : World) (filename : String) :
    World × Option Bytes × Option File × Option Error :=
  match osStat w filename with
  | some err => (w, none, none, some err)
  | none =>
    match osOpenFile x w filename with
    | (w1, Except.error err) => (w1, none, none, some err)
    | (w1, Except.ok f) =>
      match ioReadAll x w1 f with
      | (w2, _, some err) => (w2, none, some f, some err)
      | (w2, cipherText, none) => (w2, cipherText, some f, none)

/-- Method `(*Envi).Load`: the world and the document as the call leaves
them, the file `f` of the Go pair `(f, err)`, and what the call does: return
`err`, or panic inside `decryptSymmetric`. -/
def Envi.Load (x : Ext) (envi : Envi) (w : World) :
    World × Envi × Option File × Run (Option Error) :=
  if x.resourceID.length = 0 then (w, envi, none, Run.ret (some Error.errResourceID))
  else
    let enviFile := (locate (osStat w) x.pathJoin x.callerDir).1
    match readFile x w enviFile with
    | (w1, _, f, some err) => (w1, envi, f, Run.ret (some err))
    | (w1, cipherText, f, none) =>
      match decryptSymmetric x x.resourceID (cipherText.getD []) with
      | Run.panic => (w1, envi, f, Run.panic)
      | Run.ret (_, some err) => (w1, envi, f, Run.ret (some err))
      | Run.ret (data, none) =>
        match x.yamlUnmarshal (data.getD []) envi with
        | (err, envi1) => (w1, envi1, f, Run.ret (err.map Error.lib))

/-! ## Save (`internal/envi.go`, lines 115-136) -/

/-- Method `(*Envi).Save`. The call panics when a sort does (the document is
then left part sorted, which is not described). Otherwise the result is the
world and the document as the call leaves them, and what the rest of the call
does: return an error or nil, or panic inside `encryptSymmetric`. -/
def Envi.Save (x : Ext) (envi : Envi) (f : File) (w0 : World) :
    Run (World × Envi × Run (Option Error)) :=
  let w : World := { w0 with trace := w0.trace ++ [Event.save] }
  match envi.sortVars x Production with
  | Run.panic => Run.panic
  | Run.ret envi1 =>
    match envi1.sortVars x Developer with
    | Run.panic => Run.panic
    | Run.ret envi2 =>
      match envi2.Marshal x with
      | Run.panic => Run.ret (w, envi2, Run.panic)
      | Run.ret (_, some err) => Run.ret (w, envi2, Run.ret (some err))
      | Run.ret (newData, none) =>
        match fileTruncate x w f with
        | (w1, some err) => Run.ret (w1, envi2, Run.ret (some err))
        | (w1, none) =>
          match fileWriteAt x w1 f (newData.getD []) with
          | (w2, some err) => Run.ret (w2, envi2, Run.ret (some err))
          | (w2, none) =>
            let w3 := fileSync x w2 f
            match fileClose x w3 f with
            | (w4, some err) => Run.ret (w4, envi2, Run.ret (some err))
            | (w4, none) => Run.ret (w4, envi2, Run.ret none)

/-! ## The library entry point (`envi.go`) -/

/-- Function `SetEnv`: starts from `&internal.Envi` with no `Env`. -/
def SetEnv (x : Ext) (env : Environment) (w : World) (st : Environ) :
    Run (World × Environ × Option Error) :=
  let envi : Envi := { Env := none }
  match envi.Load x w with
  | (_, _, _, Run.panic) => Run.panic
  | (w1, _, _, Run.ret (some err)) =>
    Run.ret (w1, st, some (Error.wrap "failed to set env variables: %w" err))
  | (w1, envi1, _, Run.ret none) =>
    match ExportVars (some envi1) env st with
    | Run.panic => Run.panic
    | Run.ret (some err, st1) =>
      Run.ret (w1, st1, some (Error.wrap "failed to set env variables: %w" err))
    | Run.ret (none, st1) => Run.ret (w1, st1, none)

/-! ## The command line (`envi-cli/cmd.go`) -/

/-- Function `initYaml`: the world as the call leaves it, and what the call
does: return an error or nil, or panic inside `decryptSymmetric` or
`encryptSymmetric`. -/
def initYaml (x : Ext) (w : World) : World × Run (Option Error) :=
  let newEnvi := NewEnvi
  match newEnvi.Load x w with
  | (w1, _, _, Run.panic) => (w1, Run.panic)
  | (w1, _, _, Run.ret none) => (w1, Run.ret (some Error.errorAlreadyInitialized))
  | (w1, newEnvi1, _, Run.ret (some _)) =>
    match newEnvi1.Marshal x with
    | Run.panic => (w1, Run.panic)
    | Run.ret (_, some err) => (w1, Run.ret (some err))
    | Run.ret (data, none) =>
      match osCreate x w1 Filename with
      | (w2, Except.error err) => (w2, Run.ret (some err))
      | (w2, Except.ok f) =>
        match fileWrite x w2 f (data.getD []) with
        | (w3, some err) => (w3, Run.ret (some err))
        | (w3, none) =>
          let w4 := fileSync x w3 f
          match fileClose x w4 f with
          | (w5, some err) => (w5, Run.ret (some err))
          | (w5, none) => (w5, Run.ret none)

/-- Function `startEditor`: the editor process runs on the file named
`f.Name()` and leaves it as the oracle says. -/
def startEditor (x : Ext) (w : World) (f : File) : World × Option Error :=
  if x.goos = "windows" ∨ x.goos = "darwin" ∨ x.goos = "linux" then
    match x.editorRun (w.files f.name) with
    | (err, content) =>
      ({ w with files := fun p => if p = f.name then content else w.files p }, err.map Error.lib)
  else (w, some (Error.errorf "operating system not supported"))

/-- Lines 137-151 of `edit`: read the temporary file back, decode it, save. -/
def editValidateSave (x : Ext) (cf nf : File) (modEnvi : Envi) (w : World) :
    Run (World × Option Error) :=
  match ioReadAll x w nf with
  | (w1, _, some err) => Run.ret (w1, some err)
  | (w1, data, none) =>
    match x.yamlUnmarshal (data.getD []) modEnvi with
    | (some err, _) =>
      Run.ret ({ w1 with trace := w1.trace ++ [Event.decodeFailed err] }, some (Error.lib err))
    | (none, modEnvi1) =>
      match modEnvi1.Save x cf w1 with
      | Run.panic => Run.panic
      | Run.ret (_, _, Run.panic) => Run.panic
      | Run.ret (w2, _, Run.ret (some err)) => Run.ret (w2, some err)
      | Run.ret (w2, _, Run.ret none) => Run.ret (w2, none)

/-- The calls deferred on lines 134-135 of `edit`, in the order they run:
`deferror.As(nf.Close, &err)`, then `os.Remove(tmpFilename)`. -/
def editDeferredTmp (x : Ext) (nf : File) (tmpFilename : String) (w : World)
    (err : Option Error) : World × Option Error :=
  match fileClose x w nf with
  | (w1, r) =>
    match osRemove x w1 tmpFilename with
    | (w2, _) => (w2, x.deferrorAs r err)

/-- Lines 106-151 of `edit`, with the calls deferred on lines 134-135. -/
def editBody (x : Ext) (cf : File) (currentEnvi modEnvi : Envi) (tmpFilename : String)
    (w : World) : Run (World × Option Error) :=
  match osCreate x w tmpFilename with
  | (w1, Except.error err) => Run.ret (w1, some err)
  | (w1, Except.ok nf) =>
    match x.yamlMarshal currentEnvi with
    | Except.error err => Run.ret (w1, some (Error.lib err))
    | Except.ok currentBytes =>
      match fileWrite x w1 nf currentBytes with
      | (w2, some err) => Run.ret (w2, some err)
      | (w2, none) =>
        let w3 := fileSync x w2 nf
        match fileClose x w3 nf with
        | (w4, some err) => Run.ret (w4, some err)
        | (w4, none) =>
          match startEditor x w4 nf with
          | (w5, some err) =>
            Run.ret (w5, some (Error.wrap "failure to edit envi.yaml file: %w" err))
          | (w5, none) =>
            match osOpenFile x w5 nf.name with
            | (w6, Except.error err) => Run.ret (w6, some err)
            | (w6, Except.ok nf2) =>
              match editValidateSave x cf nf2 modEnvi w6 with
              | Run.panic => Run.panic
              | Run.ret (w7, err) => Run.ret (editDeferredTmp x nf2 tmpFilename w7 err)

/-- Function `edit`: `Load`, then the body, then the call deferred on line
104, `deferror.As(cf.Close, &err)`. `Load` hands back a file whenever it
returns no error, so the third case below never runs. -/
def edit (x : Ext) (w : World) : Run (World × Option Error) :=
  let currentEnvi := NewEnvi
  let modEnvi := NewEnvi
  let tmpFilename := x.pathJoin x.tempDir (Filename ++ ".tmp")
  match currentEnvi.Load x w with
  | (_, _, _, Run.panic) => Run.panic
  | (w1, _, _, Run.ret (some err)) => Run.ret (w1, some err)
  | (w1, _, none, Run.ret none) => Run.ret (w1, none)
  | (w1, currentEnvi1, some cf, Run.ret none) =>
    match editBody x cf currentEnvi1 modEnvi tmpFilename w1 with
    | Run.panic => Run.panic
    | Run.ret (w2, err) =>
      match fileClose x w2 cf with
      | (w3, r) => Run.ret (w3, x.deferrorAs r err)

/-! ## Sample values -/

/-- The empty process environment. -/
def emptyEnviron : Environ := fun _ => none

/-- A `path.Join` for the sample: `..` drops the last element of an absolute
path, any other name is appended after a slash. -/
def sampleJoin (dir name : String) : String :=
  if name = ".." then
    String.mk (((dir.data.reverse.dropWhile (fun c => c != '/')).drop 1).reverse ++
      (if ((dir.data.reverse.dropWhile (fun c => c != '/')).drop 1).isEmpty then ['/'] else []))
  else if dir = "/" then String.mk ('/' :: name.data)
  else String.mk (dir.data ++ '/' :: name.data)

/-- A sample of the outside world: a service that complements each byte and
reports correct checksums, a codec whose only text is `[1]` (it decodes to the
document it is given, unchanged), no failing system call, an editor that
leaves the file as it is, a library sort that names the reversed slice. -/
def sampleExt : Ext :=
  { resourceID := "projects/p/locations/l/keyRings/r/cryptoKeys/k"
    callerDir := "/app/cmd"
    pathJoin := sampleJoin
    tempDir := "/tmp"
    newClient := none
    kmsDecrypt := fun req =>
      Except.ok { Plaintext := req.Ciphertext.map (fun b => 255 - b),
                  PlaintextCrc32C := some (crc32c (req.Ciphertext.map (fun b => 255 - b)) : Int) }
    kmsEncrypt := fun req =>
      Except.ok { Ciphertext := req.Plaintext.map (fun b => 255 - b),
                  CiphertextCrc32C := some (crc32c (req.Plaintext.map (fun b => 255 - b)) : Int),
                  VerifiedPlaintextCrc32C := true }
    yamlMarshal := fun _ => Except.ok [1]
    yamlUnmarshal := fun data envi =>
      if data = [1] then (none, envi) else (some "yaml: unmarshal errors", envi)
    faults := fun _ => none
    goos := "linux"
    editorRun := fun content => (none, content)
    deferrorAs := fun r err => match err with
      | some e => some e
      | none => r
    sortPick := fun e => e.reverse }

/-- A sample world: the encrypted file `/app/envi.yaml`, which holds the
ciphertext `[254]` of the text `[1]`; nothing open. -/
def sampleWorld : World :=
  { files := fun p => if p = "/app/envi.yaml" then some [254] else none
    opened := []
    nextFd := 3
    clock := 0
    trace := [] }

/-- The document of the counterexamples on export: `A=1` in production. -/
def docA1 : Envi :=
  { Env := some { Production := [some { Name := [65], Value := [49] }], Developer := [] } }

/-- A process environment in which `A` is set to the empty string. -/
def environAEmpty : Environ := fun k => if k = [65] then some [] else none

/-- A document that lists `A` twice in production, as `A=1` then `A=2`. -/
def docA1A2 : Envi :=
  { Env := some { Production := [some { Name := [65], Value := [49] },
                                 some { Name := [65], Value := [50] }],
                  Developer := [] } }

/-- A document whose production list is the placeholder followed by `A=1`. -/
def docPlaceholderA1 : Envi :=
  { Env := some { Production := [some { Name := [], Value := [] },
                                 some { Name := [65], Value := [49] }],
                  Developer := [] } }

/-- A document with `A=1` and `B=2` in production. -/
def docA1B2 : Envi :=
  { Env := some { Production := [some { Name := [65], Value := [49] },
                                 some { Name := [66], Value := [50] }],
                  Developer := [] } }

/-- A process environment in which only `A` is set, to `7`. -/
def environA7 : Environ := fun k => if k = [65] then some [55] else none

/-- A document whose lists are out of order: `B=2`, `A=1` in production and
`C=3`, `B=2`, `A=1` in developer. -/
def docUnsorted : Envi :=
  { Env := some
      { Production := [some { Name := [66], Value := [50] }, some { Name := [65], Value := [49] }],
        Developer := [some { Name := [67], Value := [51] }, some { Name := [66], Value := [50] },
                      some { Name := [65], Value := [49] }] } }

/-- A document whose production list holds `B=2`, then a nil entry (an empty
item in the text), then `A=1`. -/
def docNilEntry : Envi :=
  { Env := some
      { Production := [some { Name := [66], Value := [50] }, none,
                       some { Name := [65], Value := [49] }],
        Developer := [] } }

/-- The order of the specification on names: `a` equals `b` or comes before it
in the lexicographic order of the bytes. -/
def bytesLE (a b : GoString) : Prop := a = b ∨ List.Lex (· < ·) a b

instance bytesLE.decidable (a b : GoString) : Decidable (bytesLE a b) := by
  unfold bytesLE
  infer_instance

/-- The order of the specification on entries: both are present and the name
of the first is at most the name of the second. -/
def nameLE : Option EnvVariable → Option EnvVariable → Prop
  | some u, some v => bytesLE u.Name v.Name
  | _, _ => False

instance nameLE.decidable (a b : Option EnvVariable) : Decidable (nameLE a b) := by
  cases a <;> cases b <;> unfold nameLE <;> infer_instance

/-- A list is in nondecreasing order of `Name`. -/
def SortedByName (l : List (Option EnvVariable)) : Prop :=
  l.Pairwise nameLE

instance SortedByName.decidable (l : List (Option EnvVariable)) : Decidable (SortedByName l) := by
  unfold SortedByName
  infer_instance

/-- The insertion sort on entries that are all present: its inner loop. -/
def sinkEntry (x : EnvVariable) : List EnvVariable → List EnvVariable
  | [] => [x]
  | y :: ys => if strLess x.Name y.Name then y :: sinkEntry x ys else x :: y :: ys

/-- The insertion sort on entries that are all present: its outer loop. -/
def sortEntries : List EnvVariable → List EnvVariable → List EnvVariable
  | [], acc => acc.reverse
  | x :: rest, acc => sortEntries rest (sinkEntry x acc)

/-! ## The file locator, as the specification words it -/

/-- The directory `k` levels above `envDir`: `k` times `path.Join(_, "..")`. -/
def ancestor (join : String → String → String) (envDir : String) : Nat → String
  | 0 => envDir
  | k + 1 => ancestor join (join envDir "..") k

/-- The number of levels up to the nearest of the first 100 directories, from
`envDir` upwards, in which `envi.yaml` is present, if there is one. -/
def nearestLevel (present : String → Bool) (join : String → String → String)
    (envDir : String) : Option Nat :=
  (List.range 100).find? (fun k => present (join (ancestor join envDir k) "envi.yaml"))

/-- The path the specification asks for: `envi.yaml` in the nearest directory
that has it, or the bare file name. -/
def nearestFile (present : String → Bool) (join : String → String → String)
    (envDir : String) : String :=
  match nearestLevel present join envDir with
  | some k => join (ancestor join envDir k) "envi.yaml"
  | none => "envi.yaml"

/-- The existence checks the specification allows: the starting directory
first, then each parent in turn, up to and including the first directory that
has the file, and 100 of them when none has. -/
def checksAllowed (present : String → Bool) (join : String → String → String)
    (envDir : String) : List String :=
  match nearestLevel present join envDir with
  | some k => (List.range (k + 1)).map (fun i => join (ancestor join envDir i) "envi.yaml")
  | none => (List.range 100).map (fun i => join (ancestor join envDir i) "envi.yaml")

/-- The sample, with an editor that exits with a failure. -/
def extEditorFails : Ext :=
  { sampleExt with editorRun := fun content => (some "exit status 1", content) }

/-- The sample, with a service that refuses to decrypt. -/
def extDecryptFails : Ext :=
  { sampleExt with kmsDecrypt := fun _ => Except.error "rpc error: unavailable" }

/-- The sample, with an editor that leaves text the codec cannot decode. -/
def extEditorGarbles : Ext :=
  { sampleExt with editorRun := fun _ => (none, some [0]) }

/-- The sample, without a key identifier. -/
def extNoKey : Ext :=
  { sampleExt with resourceID := "" }

/-- The sample, with a service whose responses do not carry the checksum
field. -/
def extNoChecksum : Ext :=
  { sampleExt with
    kmsDecrypt := fun req =>
      Except.ok { Plaintext := req.Ciphertext.map (fun b => 255 - b), PlaintextCrc32C := none }
    kmsEncrypt := fun req =>
      Except.ok { Ciphertext := req.Plaintext.map (fun b => 255 - b), CiphertextCrc32C := none,
                  VerifiedPlaintextCrc32C := true } }

/-- The sample, with a service that reports, for every payload it returns, the
checksum of the empty payload. -/
def extWrongChecksum : Ext :=
  { sampleExt with
    kmsDecrypt := fun req =>
      Except.ok { Plaintext := req.Ciphertext.map (fun b => 255 - b), PlaintextCrc32C := some 0 }
    kmsEncrypt := fun req =>
      Except.ok { Ciphertext := req.Plaintext.map (fun b => 255 - b), CiphertextCrc32C := some 0,
                  VerifiedPlaintextCrc32C := true } }

/-- A world without any file. -/
def emptyWorld : World :=
  { files := fun _ => none, opened := [], nextFd := 3, clock := 0, trace := [] }

/-- Between two worlds no file other than `tmp` differs, and the ghost record
is the same. -/
def Quiet (tmp : String) (w w1 : World) : Prop :=
  (∀ p, p ≠ tmp → w1.files p = w.files p) ∧ w1.trace = w.trace

/-- A world whose only file is an `envi.yaml` in the working directory that
the service cannot decrypt. -/
def worldForeignFile : World :=
  { files := fun p => if p = "envi.yaml" then some [7, 7, 7] else none
    opened := [], nextFd := 3, clock := 0, trace := [] }

/-! ## Lemmas on the process environment -/

theorem Setenv_error {env env1 : Environ} {key value : GoString} {err : Error}
    (h : Setenv env key value = (some err, env1)) : env1 = env ∧ err = EINVAL := by
  unfold Setenv at h
  split_ifs at h <;> simp_all

theorem Setenv_ok {env env1 : Environ} {key value : GoString}
    (h : Setenv env key value = (none, env1)) :
    key ≠ [] ∧ env1 = fun k => if k = key then some value else env k := by
  unfold Setenv at h
  split_ifs at h with h1 h2 h3 <;> simp_all

theorem LookupEnv_Setenv_ok {env env1 : Environ} {key value : GoString}
    (h : Setenv env key value = (none, env1)) (name : GoString) :
    LookupEnv env1 name = if name = key then some value else LookupEnv env name := by
  obtain ⟨hk, rfl⟩ := Setenv_ok h
  unfold LookupEnv
  by_cases hn : name = key
  · subst hn; simp [hk]
  · simp [hn]

theorem Getenv_eq_nil_iff (env : Environ) (key : GoString) :
    Getenv env key = [] ↔ LookupEnv env key = none ∨ LookupEnv env key = some [] := by
  unfold Getenv
  cases LookupEnv env key <;> simp

/-- The loop never changes a variable that reads back non-empty. -/
theorem exportEnviVariables_keeps (vars : List (Option EnvVariable)) :
    ∀ (st st1 : Environ) (err : Option Error),
      exportEnviVariables vars st = Run.ret (err, st1) →
      ∀ name v, LookupEnv st name = some v → v ≠ [] → LookupEnv st1 name = some v := by
  induction vars with
  | nil =>
    intro st st1 err h name v hset _
    simp only [exportEnviVariables, Run.ret.injEq, Prod.mk.injEq] at h
    rw [← h.2]; exact hset
  | cons a rest ih =>
    intro st st1 err h name v hset hv
    cases a with
    | none => simp [exportEnviVariables] at h
    | some u =>
      unfold exportEnviVariables at h
      split at h
      · exact ih _ _ _ h name v hset hv
      · rename_i hskip
        split at h
        · rename_i e env1 hs
          obtain ⟨rfl, _⟩ := Setenv_error hs
          simp only [Run.ret.injEq, Prod.mk.injEq] at h
          rw [← h.2]; exact hset
        · rename_i env1 hs
          refine ih _ _ _ h name v ?_ hv
          rw [LookupEnv_Setenv_ok hs]
          have hne : name ≠ u.Name := by
            rintro rfl
            apply hskip
            simp only [Getenv, hset, Option.getD_some]
            exact List.length_pos.mpr hv
          simp [hne, hset]

/-- Once a variable holds the value every entry of its name carries, a
successful run of the loop leaves it there. -/
theorem exportEnviVariables_stays (vars : List (Option EnvVariable)) :
    ∀ (st st1 : Environ), exportEnviVariables vars st = Run.ret (none, st1) →
      ∀ name v, (∀ u, some u ∈ vars → u.Name = name → u.Value = v) →
        LookupEnv st name = some v → LookupEnv st1 name = some v := by
  induction vars with
  | nil =>
    intro st st1 h name v _ hset
    simp only [exportEnviVariables, Run.ret.injEq, Prod.mk.injEq] at h
    rw [← h.2]; exact hset
  | cons a rest ih =>
    intro st st1 h name v hagree hset
    have hrest : ∀ u, some u ∈ rest → u.Name = name → u.Value = v :=
      fun u hu => hagree u (List.mem_cons_of_mem _ hu)
    cases a with
    | none => simp [exportEnviVariables] at h
    | some u =>
      unfold exportEnviVariables at h
      split at h
      · exact ih _ _ h name v hrest hset
      · split at h
        · simp at h
        · rename_i env1 hs
          refine ih _ _ h name v hrest ?_
          rw [LookupEnv_Setenv_ok hs]
          by_cases hn : name = u.Name
          · simp [hn, hagree u (List.mem_cons_self _ _) hn.symm]
          · simp [hn, hset]

/-- A successful run of the loop gives an entry's value to a variable that
read back empty, when the entries of that name agree on the value. -/
theorem exportEnviVariables_applies (vars : List (Option EnvVariable)) :
    ∀ (st st1 : Environ), exportEnviVariables vars st = Run.ret (none, st1) →
      ∀ v, some v ∈ vars → (∀ u, some u ∈ vars → u.Name = v.Name → u.Value = v.Value) →
        Getenv st v.Name = [] → LookupEnv st1 v.Name = some v.Value := by
  induction vars with
  | nil => intro st st1 _ v hv; cases hv
  | cons a rest ih =>
    intro st st1 h v hv hagree hunset
    have hrest : ∀ u, some u ∈ rest → u.Name = v.Name → u.Value = v.Value :=
      fun u hu => hagree u (List.mem_cons_of_mem _ hu)
    cases a with
    | none => simp [exportEnviVariables] at h
    | some u =>
      unfold exportEnviVariables at h
      split at h
      · rename_i hskip
        have hne : u.Name ≠ v.Name := by
          intro he
          rw [he, hunset] at hskip
          simp at hskip
        have hmem : some v ∈ rest := by
          rcases List.mem_cons.mp hv with he | hm
          · exact absurd (congrArg EnvVariable.Name (Option.some.inj he)).symm hne
          · exact hm
        exact ih _ _ h v hmem hrest hunset
      · split at h
        · simp at h
        · rename_i env1 hs
          by_cases hn : u.Name = v.Name
          · refine exportEnviVariables_stays rest _ _ h v.Name v.Value hrest ?_
            rw [LookupEnv_Setenv_ok hs]
            simp [hn, hagree u (List.mem_cons_self _ _) hn]
          · have hmem : some v ∈ rest := by
              rcases List.mem_cons.mp hv with he | hm
              · exact absurd (congrArg EnvVariable.Name (Option.some.inj he)).symm hn
              · exact hm
            refine ih _ _ h v hmem hrest ?_
            unfold Getenv
            rw [LookupEnv_Setenv_ok hs]
            simp only [Ne.symm hn, if_false]
            exact hunset

/-- What `ExportVars` returns on a document is what the loop returns on the
selected list. -/
theorem ExportVars_some_ret {envi : Envi} {environment : Environment} {st st1 : Environ}
    {err : Option Error} (h : ExportVars (some envi) environment st = Run.ret (err, st1)) :
    ∃ vars, selectVars environment envi = Run.ret vars ∧
      exportEnviVariables vars st = Run.ret (err, st1) := by
  unfold ExportVars exportEnviEnvironment at h
  cases hsel : selectVars environment envi with
  | panic => simp [hsel] at h
  | ret vars =>
    refine ⟨vars, rfl, ?_⟩
    simp only [hsel] at h
    split at h <;> rename_i hx
    · cases h
    · split at hx <;> rename_i hy
      · cases hx
      · simp only [Run.ret.injEq, Prod.mk.injEq] at hx h
        rw [hy, ← h.1, ← h.2, ← hx.2.1, ← hx.2.2]
      · simp only [Run.ret.injEq, Prod.mk.injEq] at hx h
        rw [hy, ← h.1, ← h.2, ← hx.2.1, ← hx.2.2]

/-! ## Claims on export -/

/-- C1, counterexample: `A` is set to the empty string before the call and
the production list holds `A=1`; `ExportVars` returns nil and `A` is `1`
afterwards, so a variable that was set has been overwritten. -/
theorem ExportVars_overwrites_empty_value :
    LookupEnv environAEmpty [65] = some [] ∧
    ∃ st1, ExportVars (some docA1) Production environAEmpty = Run.ret (none, st1) ∧
      LookupEnv st1 [65] = some [49] :=
  ⟨by decide, _, rfl, by decide⟩

/-- C1, amended: whatever `ExportVars` returns, every variable that was set to
a non-empty value before the call has exactly that value after it. -/
theorem ExportVars_keeps_nonempty (envi : Option Envi) (environment : Environment)
    (st st1 : Environ) (err : Option Error)
    (h : ExportVars envi environment st = Run.ret (err, st1))
    (name v : GoString) (hset : LookupEnv st name = some v) (hv : v ≠ []) :
    LookupEnv st1 name = some v := by
  cases envi with
  | none =>
    simp only [ExportVars, Run.ret.injEq, Prod.mk.injEq] at h
    rw [← h.2]; exact hset
  | some e =>
    obtain ⟨vars, _, hx⟩ := ExportVars_some_ret h
    exact exportEnviVariables_keeps vars st st1 err hx name v hset hv

/-- C1, witness: with `A=7` set and the list `A=1`, `B=2`, the call sets `B`
and `A` is still `7`. -/
theorem ExportVars_keeps_nonempty_witness :
    ExportVars (some docA1B2) Production environA7 =
        Run.ret (none, fun k => if k = [66] then some [50] else environA7 k) ∧
      LookupEnv environA7 [65] = some [55] ∧
      LookupEnv (fun k => if k = [66] then some [50] else environA7 k) [65] = some [55] :=
  ⟨rfl, by decide,
    ExportVars_keeps_nonempty (some docA1B2) Production environA7 _ none rfl [65] [55]
      (by decide) (by decide)⟩

/-- C2, counterexample: (1) the production list holds `A=1` then `A=2` and `A`
is not set; after the call `A` is `1`, not the value of the entry `A=2`.
(2) the list holds the placeholder then `A=1`; the call stops at the
placeholder with the error of `os.Setenv` and `A` stays unset. -/
theorem ExportVars_unset_name_not_applied :
    selectVars Production docA1A2 =
        Run.ret [some { Name := [65], Value := [49] }, some { Name := [65], Value := [50] }] ∧
      LookupEnv emptyEnviron [65] = none ∧
      (∃ st1, ExportVars (some docA1A2) Production emptyEnviron = Run.ret (none, st1) ∧
        LookupEnv st1 [65] = some [49]) ∧
      selectVars Production docPlaceholderA1 =
        Run.ret [some { Name := [], Value := [] }, some { Name := [65], Value := [49] }] ∧
      ExportVars (some docPlaceholderA1) Production emptyEnviron =
        Run.ret (some EINVAL, emptyEnviron) :=
  ⟨rfl, by decide, ⟨_, rfl, by decide⟩, rfl, rfl⟩

/-- C2, amended: when `ExportVars` returns nil, an entry of the selected list
whose variable was not set before the call (or was set to the empty string),
and whose name no entry of the list carries with another value, has its value
in the process environment after the call. -/
theorem ExportVars_applies_unset (envi : Envi) (environment : Environment)
    (st st1 : Environ) (vars : List (Option EnvVariable))
    (hsel : selectVars environment envi = Run.ret vars)
    (h : ExportVars (some envi) environment st = Run.ret (none, st1))
    (v : EnvVariable) (hv : some v ∈ vars)
    (hagree : ∀ u, some u ∈ vars → u.Name = v.Name → u.Value = v.Value)
    (hunset : Getenv st v.Name = []) :
    LookupEnv st1 v.Name = some v.Value := by
  obtain ⟨vars1, hsel1, hx⟩ := ExportVars_some_ret h
  rw [hsel] at hsel1
  cases hsel1
  exact exportEnviVariables_applies vars st st1 hx v hv hagree hunset

/-- C2, witness: with `A=7` set and the list `A=1`, `B=2`, the entry `B=2` is
applied. -/
theorem ExportVars_applies_unset_witness :
    selectVars Production docA1B2 =
        Run.ret [some { Name := [65], Value := [49] }, some { Name := [66], Value := [50] }] ∧
      ExportVars (some docA1B2) Production environA7 =
        Run.ret (none, fun k => if k = [66] then some [50] else environA7 k) ∧
      Getenv environA7 [66] = [] ∧
      LookupEnv (fun k => if k = [66] then some [50] else environA7 k) [66] = some [50] :=
  ⟨rfl, rfl, by decide,
    ExportVars_applies_unset docA1B2 Production environA7 _ _ rfl rfl
      { Name := [66], Value := [50] } (by decide)
      (by
        intro u hu hn
        simp only [List.mem_cons, Option.some.injEq, List.mem_singleton, List.not_mem_nil,
          or_false] at hu
        rcases hu with rfl | rfl
        · exact absurd hn (by decide)
        · rfl)
      (by decide)⟩

/-- C7, counterexample: on the freshly initialised document and an empty
process environment `ExportVars` returns the error of `os.Setenv`, not nil. -/
theorem ExportVars_NewEnvi_fails :
    ExportVars (some NewEnvi) Production emptyEnviron = Run.ret (some EINVAL, emptyEnviron) :=
  rfl

/-- C7, amended: an entry with an empty name makes the loop stop with the
error `os.Setenv` returns for an empty key, whatever the process environment
holds, and that entry changes no variable; in particular `ExportVars` returns
that error on the document of `NewEnvi`, for either environment. -/
theorem ExportVars_placeholder_error (st : Environ) (value : GoString)
    (rest : List (Option EnvVariable)) :
    exportEnviVariables (some { Name := [], Value := value } :: rest) st =
        Run.ret (some EINVAL, st) ∧
      ExportVars (some NewEnvi) Production st = Run.ret (some EINVAL, st) ∧
      ExportVars (some NewEnvi) Developer st = Run.ret (some EINVAL, st) :=
  ⟨rfl, rfl, rfl⟩

/-- C10, the failing input: on a document without `Env`, as `SetEnv` builds it
and as it stays when the decoded text has no `env` key, `ExportVars` panics
on the nil dereference for either environment, and so does `SetEnv`; on a nil
document it returns nil and leaves the process environment alone. -/
theorem ExportVars_nil_Env_panics (st : Environ) :
    ExportVars (some { Env := none }) Production st = Run.panic ∧
      ExportVars (some { Env := none }) Developer st = Run.panic ∧
      SetEnv sampleExt Production sampleWorld st = Run.panic ∧
      ExportVars none Production st = Run.ret (none, st) :=
  ⟨rfl, rfl, rfl, rfl⟩

/-! ## Sorting -/

theorem strLess_irrefl (a : GoString) : strLess a a = false := by
  induction a with
  | nil => rfl
  | cons x xs ih => simp [strLess, ih]

theorem strLess_asymm : ∀ (a b : GoString), strLess a b = true → strLess b a = false
  | [], [] => by simp [strLess]
  | [], _ :: _ => by simp [strLess]
  | _ :: _, [] => by simp [strLess]
  | x :: xs, y :: ys => by
    intro h
    simp only [strLess] at h ⊢
    by_cases hxy : x < y
    · have : ¬ y < x := Nat.lt_asymm hxy
      simp [this, hxy]
    · by_cases hyx : y < x
      · simp [hxy, hyx] at h
      · simp only [hxy, hyx, if_false] at h ⊢
        exact strLess_asymm xs ys h

/-- When `c` is not below `b` and `b` is not below `a`, `c` is not below `a`. -/
theorem strLess_false_trans : ∀ (a b c : GoString),
    strLess b a = false → strLess c b = false → strLess c a = false
  | [], _, [] => by simp [strLess]
  | [], _, _ :: _ => by simp [strLess]
  | _ :: _, [], _ => by simp [strLess]
  | _ :: _, _ :: _, [] => by simp [strLess]
  | x :: xs, y :: ys, z :: zs => by
    intro h1 h2
    simp only [strLess] at h1 h2 ⊢
    by_cases hyx : y < x
    · simp [hyx] at h1
    · by_cases hxy : x < y
      · by_cases hzy : z < y
        · simp [hzy] at h2
        · have hzx : ¬ z < x := by omega
          have hxz : x < z := by omega
          simp [hzx, hxz]
      · have hxy2 : x = y := by omega
        subst hxy2
        simp only [hyx, if_false] at h1
        by_cases hzx : z < x
        · simp [hzx] at h2
        · by_cases hxz : x < z
          · simp [hzx, hxz]
          · simp only [hzx, hxz, if_false] at h2 ⊢
            exact strLess_false_trans xs ys zs h1 h2

/-- The comparison of the code agrees with the order of the specification. -/
theorem bytesLE_of_strLess_false : ∀ (a b : GoString), strLess b a = false → bytesLE a b
  | [], [] => fun _ => Or.inl rfl
  | [], _ :: _ => fun _ => Or.inr List.Lex.nil
  | _ :: _, [] => by simp [strLess]
  | x :: xs, y :: ys => by
    intro h
    simp only [strLess] at h
    by_cases hyx : y < x
    · simp [hyx] at h
    · by_cases hxy : x < y
      · exact Or.inr (List.Lex.rel hxy)
      · have hxy2 : x = y := by omega
        subst hxy2
        simp only [hyx, if_false] at h
        rcases bytesLE_of_strLess_false xs ys h with he | hl
        · exact Or.inl (by rw [he])
        · exact Or.inr (List.Lex.cons hl)

theorem sinkEntry_perm (x : EnvVariable) (acc : List EnvVariable) :
    (sinkEntry x acc).Perm (x :: acc) := by
  induction acc with
  | nil => exact List.Perm.refl _
  | cons y ys ih =>
    unfold sinkEntry
    split
    · exact (List.Perm.cons y ih).trans (List.Perm.swap x y ys)
    · exact List.Perm.refl _

theorem sinkEntry_pairwise (x : EnvVariable) (acc : List EnvVariable)
    (h : acc.Pairwise (fun a b => strLess a.Name b.Name = false)) :
    (sinkEntry x acc).Pairwise (fun a b => strLess a.Name b.Name = false) := by
  induction acc with
  | nil => simp [sinkEntry]
  | cons y ys ih =>
    rw [List.pairwise_cons] at h
    unfold sinkEntry
    split
    · rename_i hxy
      rw [List.pairwise_cons]
      refine ⟨?_, ih h.2⟩
      intro z hz
      rcases List.mem_cons.mp ((sinkEntry_perm x ys).subset hz) with rfl | hz1
      · exact strLess_asymm _ _ hxy
      · exact h.1 z hz1
    · rename_i hxy
      have hxy1 : strLess x.Name y.Name = false := by simpa using hxy
      rw [List.pairwise_cons]
      refine ⟨?_, List.pairwise_cons.mpr h⟩
      intro z hz
      rcases List.mem_cons.mp hz with rfl | hz1
      · exact hxy1
      · exact strLess_false_trans _ _ _ (h.1 z hz1) hxy1

/-- The insertion sort on entries returns the same entries, none below an
earlier one. -/
theorem sortEntries_sorted_perm (e : List EnvVariable) :
    ∀ acc : List EnvVariable, acc.Pairwise (fun a b => strLess a.Name b.Name = false) →
      (sortEntries e acc).Pairwise (fun a b => strLess b.Name a.Name = false) ∧
      (sortEntries e acc).Perm (e ++ acc) := by
  induction e with
  | nil =>
    intro acc h
    unfold sortEntries
    exact ⟨List.pairwise_reverse.mpr h, List.reverse_perm acc⟩
  | cons x xs ih =>
    intro acc h
    unfold sortEntries
    obtain ⟨h1, h2⟩ := ih (sinkEntry x acc) (sinkEntry_pairwise x acc h)
    refine ⟨h1, h2.trans ?_⟩
    refine ((List.Perm.append_left xs (sinkEntry_perm x acc)).trans ?_)
    simp

/-- On entries that are all present the inner loop of the library's sort does
not panic and is the inner loop on entries. -/
theorem sinkLeft_present (x : EnvVariable) (acc : List EnvVariable) :
    sinkLeft lessName (some x) (acc.map some) = Run.ret ((sinkEntry x acc).map some) := by
  induction acc with
  | nil => rfl
  | cons y ys ih =>
    simp only [List.map_cons, sinkLeft, lessName, sinkEntry]
    cases hxy : strLess x.Name y.Name with
    | false => simp
    | true => simp [ih]

/-- On entries that are all present the library's insertion sort does not
panic and is the insertion sort on entries. -/
theorem insertionSort_present (l : List EnvVariable) :
    ∀ acc : List EnvVariable,
      insertionSort lessName (l.map some) (acc.map some) =
        Run.ret ((sortEntries l acc).map some) := by
  induction l with
  | nil => intro acc; simp [insertionSort, sortEntries]
  | cons x xs ih =>
    intro acc
    simp only [List.map_cons, insertionSort, sortEntries, sinkLeft_present]
    exact ih _

theorem exists_map_some (e : List (Option EnvVariable)) (h : ∀ a ∈ e, a ≠ none) :
    ∃ l : List EnvVariable, e = l.map some := by
  induction e with
  | nil => exact ⟨[], rfl⟩
  | cons a rest ih =>
    obtain ⟨l, hl⟩ := ih (fun b hb => h b (List.mem_cons_of_mem _ hb))
    cases a with
    | none => exact absurd rfl (h none (List.mem_cons_self _ _))
    | some u => exact ⟨u :: l, by rw [hl]; rfl⟩

theorem nameLE_of_lessName_false {a b : Option EnvVariable}
    (h : lessName b a = Run.ret false) : nameLE a b := by
  cases a with
  | none => cases b <;> simp [lessName] at h
  | some u =>
    cases b with
    | none => simp [lessName] at h
    | some v =>
      simp only [lessName, Run.ret.injEq] at h
      exact bytesLE_of_strLess_false u.Name v.Name h

/-- On a list without a nil entry the function `sortVars` returns, whatever
order the library picks on a long slice, and what it returns is the same
entries in nondecreasing order of `Name`. -/
theorem sortVars_sorted_perm (x : Ext) (e : List (Option EnvVariable))
    (h : ∀ a ∈ e, a ≠ none) :
    ∃ r, sortVars x e = Run.ret r ∧ SortedByName r ∧ r.Perm e := by
  obtain ⟨l, rfl⟩ := exists_map_some e h
  obtain ⟨h1, h2⟩ := sortEntries_sorted_perm l [] List.Pairwise.nil
  have hins : insertionSort lessName (l.map some) [] =
      Run.ret ((sortEntries l []).map some) := insertionSort_present l []
  have hsorted : SortedByName ((sortEntries l []).map some) := by
    unfold SortedByName
    rw [List.pairwise_map]
    exact h1.imp (fun {a b} hab => bytesLE_of_strLess_false a.Name b.Name hab)
  have hperm : ((sortEntries l []).map some).Perm (l.map some) := by
    refine List.Perm.map some ?_
    simpa using h2
  unfold sortVars sortSlice
  rw [hins]
  dsimp only
  split_ifs with hlen hpick
  · exact ⟨_, rfl, hsorted, hperm⟩
  · refine ⟨_, rfl, ?_, hpick.1⟩
    exact hpick.2.imp (fun {a b} hab => nameLE_of_lessName_false hab)
  · exact ⟨_, rfl, hsorted, hperm⟩

theorem Developer_ne_Production : Developer ≠ Production := by decide

/-- C3, counterexample: `Save` panics on a document without `Env`, and on a
document whose production list holds a nil entry between `B=2` and `A=1`; it
does not return, and no sorted list comes out. -/
theorem Save_panics_on_nil :
    Envi.Save sampleExt { Env := none } { fd := 3, name := "/app/envi.yaml" } sampleWorld =
        Run.panic ∧
      docNilEntry.Env = some
        { Production := [some { Name := [66], Value := [50] }, none,
                         some { Name := [65], Value := [49] }],
          Developer := [] } ∧
      docNilEntry.Save sampleExt { fd := 3, name := "/app/envi.yaml" } sampleWorld = Run.panic :=
  ⟨rfl, rfl, rfl⟩

/-- C3, amended: for every document that has its variable set and no nil entry
in either list, every file and every behaviour of the outside world (the order
the library picks on a long slice included), `Save` gets through both sorts
and leaves a document whose two lists are in nondecreasing byte-wise order of
`Name`, each a rearrangement of the list it was before the call; after the
sorts the call returns an error or nil, or panics, and it panics exactly when
`Marshal` does on the sorted document. -/
theorem Save_sorts_both_lists (x : Ext) (f : File) (w : World) (envi : Envi) (e : Env)
    (he : envi.Env = some e)
    (hp : ∀ a ∈ e.Production, a ≠ none) (hd : ∀ a ∈ e.Developer, a ≠ none) :
    ∃ w1 e1 out, envi.Save x f w = Run.ret (w1, { Env := some e1 }, out) ∧
      SortedByName e1.Production ∧ SortedByName e1.Developer ∧
      e1.Production.Perm e.Production ∧ e1.Developer.Perm e.Developer ∧
      (out = Run.panic ↔ Envi.Marshal x { Env := some e1 } = Run.panic) := by
  obtain ⟨rp, hrp, hp1, hp2⟩ := sortVars_sorted_perm x e.Production hp
  obtain ⟨rd, hrd, hd1, hd2⟩ := sortVars_sorted_perm x e.Developer hd
  unfold Envi.Save
  simp only [Envi.sortVars, he, if_true, Developer_ne_Production, if_false, hrp, hrd]
  split
  · rename_i hm
    exact ⟨_, _, _, rfl, hp1, hd1, hp2, hd2, by simp [hm]⟩
  · rename_i hm
    exact ⟨_, _, _, rfl, hp1, hd1, hp2, hd2, by simp [hm]⟩
  · rename_i hm
    split
    · exact ⟨_, _, _, rfl, hp1, hd1, hp2, hd2, by simp [hm]⟩
    · split
      · exact ⟨_, _, _, rfl, hp1, hd1, hp2, hd2, by simp [hm]⟩
      · split
        · exact ⟨_, _, _, rfl, hp1, hd1, hp2, hd2, by simp [hm]⟩
        · exact ⟨_, _, _, rfl, hp1, hd1, hp2, hd2, by simp [hm]⟩

/-- C3, witness: the sample document with both lists out of order. -/
theorem Save_sorts_both_lists_witness :
    docUnsorted.Env = some
        { Production := [some { Name := [66], Value := [50] },
                         some { Name := [65], Value := [49] }],
          Developer := [some { Name := [67], Value := [51] },
                        some { Name := [66], Value := [50] },
                        some { Name := [65], Value := [49] }] } ∧
      ∃ w1 e1 out,
        docUnsorted.Save sampleExt { fd := 3, name := "/app/envi.yaml" } sampleWorld =
          Run.ret (w1, { Env := some e1 }, out) ∧
        SortedByName e1.Production ∧ SortedByName e1.Developer ∧
        e1.Production.Perm
          [some { Name := [66], Value := [50] }, some { Name := [65], Value := [49] }] ∧
        e1.Developer.Perm
          [some { Name := [67], Value := [51] }, some { Name := [66], Value := [50] },
            some { Name := [65], Value := [49] }] ∧
        (out = Run.panic ↔ Envi.Marshal sampleExt { Env := some e1 } = Run.panic) :=
  ⟨rfl, Save_sorts_both_lists sampleExt { fd := 3, name := "/app/envi.yaml" } sampleWorld
    docUnsorted _ rfl (by decide) (by decide)⟩

/-! ## Integrity gating -/

set_option maxRecDepth 100000 in
/-- The check value of CRC-32C: the checksum of the ASCII digits `123456789`. -/
theorem crc32c_check_value : crc32c [49, 50, 51, 52, 53, 54, 55, 56, 57] = 0xE3069283 := by
  rfl

theorem crc32c_lt (data : Bytes) : crc32c data < 2 ^ 32 :=
  Nat.mod_lt _ (by norm_num)

/-- C4, counterexample: the service call succeeds (and reports the request
checksum as verified) but the response does not carry the checksum field;
`decryptSymmetric` and `encryptSymmetric` then panic on the nil field: the
result is neither a payload nor an error. -/
theorem checksum_absent_panics :
    extNoChecksum.newClient = none ∧
      extNoChecksum.kmsDecrypt
          { Name := "k", Ciphertext := [254], CiphertextCrc32C := (crc32c [254] : Int) } =
        Except.ok { Plaintext := [1], PlaintextCrc32C := none } ∧
      decryptSymmetric extNoChecksum "k" [254] = Run.panic ∧
      extNoChecksum.kmsEncrypt
          { Name := "k", Plaintext := [1], PlaintextCrc32C := (crc32c [1] : Int) } =
        Except.ok { Ciphertext := [254], CiphertextCrc32C := none,
                    VerifiedPlaintextCrc32C := true } ∧
      encryptSymmetric extNoChecksum "k" [1] = Run.panic :=
  ⟨rfl, rfl, rfl, rfl, rfl⟩

/-- C4, amended: `encryptSymmetric` returns a ciphertext (and no error) exactly
when the client was created, the call succeeded on the request carrying the
checksum of the plaintext, the response reports that checksum as verified and
carries a checksum equal to the CRC32C of the returned ciphertext;
`decryptSymmetric` returns a plaintext exactly when the client was created,
the call succeeded and the response carries a checksum equal to the CRC32C of
the returned plaintext. In every other case in which the response whose
checksum is compared carries the checksum field, each returns an error and no
payload. -/
theorem integrity_gating (x : Ext) (name : String) (data : Bytes) :
    (∀ c, encryptSymmetric x name data = Run.ret (some c, none) ↔
      (x.newClient = none ∧ ∃ r,
        x.kmsEncrypt { Name := name, Plaintext := data, PlaintextCrc32C := (crc32c data : Int) }
          = Except.ok r ∧
        r.VerifiedPlaintextCrc32C = true ∧
        r.CiphertextCrc32C = some (crc32c r.Ciphertext : Int) ∧
        r.Ciphertext = c)) ∧
    ((x.newClient = none → ∀ r,
        x.kmsEncrypt { Name := name, Plaintext := data, PlaintextCrc32C := (crc32c data : Int) }
          = Except.ok r →
        r.VerifiedPlaintextCrc32C = true → r.CiphertextCrc32C ≠ none) →
      (∃ c, encryptSymmetric x name data = Run.ret (some c, none)) ∨
        ∃ err, encryptSymmetric x name data = Run.ret (none, some err)) ∧
    (∀ m, decryptSymmetric x name data = Run.ret (some m, none) ↔
      (x.newClient = none ∧ ∃ r,
        x.kmsDecrypt { Name := name, Ciphertext := data, CiphertextCrc32C := (crc32c data : Int) }
          = Except.ok r ∧
        r.PlaintextCrc32C = some (crc32c r.Plaintext : Int) ∧ r.Plaintext = m)) ∧
    ((x.newClient = none → ∀ r,
        x.kmsDecrypt { Name := name, Ciphertext := data, CiphertextCrc32C := (crc32c data : Int) }
          = Except.ok r →
        r.PlaintextCrc32C ≠ none) →
      (∃ m, decryptSymmetric x name data = Run.ret (some m, none)) ∨
        ∃ err, decryptSymmetric x name data = Run.ret (none, some err)) := by
  refine ⟨?_, ?_, ?_, ?_⟩
  · intro c
    unfold encryptSymmetric
    cases hc : x.newClient with
    | some e => simp
    | none =>
      simp only [true_and]
      cases hk : x.kmsEncrypt
          { Name := name, Plaintext := data, PlaintextCrc32C := (crc32c data : Int) } with
      | error e => simp
      | ok r =>
        by_cases hv : r.VerifiedPlaintextCrc32C = true
        · cases hcrc : r.CiphertextCrc32C with
          | none => simp [hv, hcrc]
          | some value =>
            by_cases hq : (crc32c r.Ciphertext : Int) = value
            · simp [hv, hq, hcrc]
            · have hq1 : ¬ value = (crc32c r.Ciphertext : Int) := fun h => hq h.symm
              simp [hv, hq, hq1, hcrc]
        · simp [hv]
  · intro hfield
    unfold encryptSymmetric
    cases hc : x.newClient with
    | some e => simp
    | none =>
      simp only
      cases hk : x.kmsEncrypt
          { Name := name, Plaintext := data, PlaintextCrc32C := (crc32c data : Int) } with
      | error e => simp
      | ok r =>
        by_cases hv : r.VerifiedPlaintextCrc32C = true
        · cases hcrc : r.CiphertextCrc32C with
          | none => exact absurd hcrc (hfield hc r hk hv)
          | some value =>
            by_cases hq : (crc32c r.Ciphertext : Int) = value
            · simp [hv, hq, hcrc]
            · simp [hv, hq, hcrc]
        · simp [hv]
  · intro m
    unfold decryptSymmetric
    cases hc : x.newClient with
    | some e => simp
    | none =>
      simp only [true_and]
      cases hk : x.kmsDecrypt
          { Name := name, Ciphertext := data, CiphertextCrc32C := (crc32c data : Int) } with
      | error e => simp
      | ok r =>
        cases hcrc : r.PlaintextCrc32C with
        | none => simp [hcrc]
        | some value =>
          by_cases hq : (crc32c r.Plaintext : Int) = value
          · simp [hq, hcrc]
          · have hq1 : ¬ value = (crc32c r.Plaintext : Int) := fun h => hq h.symm
            simp [hq, hq1, hcrc]
  · intro hfield
    unfold decryptSymmetric
    cases hc : x.newClient with
    | some e => simp
    | none =>
      simp only
      cases hk : x.kmsDecrypt
          { Name := name, Ciphertext := data, CiphertextCrc32C := (crc32c data : Int) } with
      | error e => simp
      | ok r =>
        cases hcrc : r.PlaintextCrc32C with
        | none => exact absurd hcrc (hfield hc r hk)
        | some value =>
          by_cases hq : (crc32c r.Plaintext : Int) = value
          · simp [hq, hcrc]
          · simp [hq, hcrc]

/-- C4, witness: the sample service, whose checksums are right, gets its
payloads through; a service that reports the checksum of the empty payload for
the one-byte payloads it returns carries the field, and both functions answer
with the error of a response corrupted in transit. -/
theorem integrity_gating_witness :
    encryptSymmetric sampleExt "k" [1] = Run.ret (some [254], none) ∧
      decryptSymmetric sampleExt "k" [254] = Run.ret (some [1], none) ∧
      ((∃ c, encryptSymmetric extWrongChecksum "k" [1] = Run.ret (some c, none)) ∨
        ∃ err, encryptSymmetric extWrongChecksum "k" [1] = Run.ret (none, some err)) ∧
      encryptSymmetric extWrongChecksum "k" [1] =
        Run.ret (none, some (Error.errorf "encrypt: response corrupted in-transit")) ∧
      decryptSymmetric extWrongChecksum "k" [254] =
        Run.ret (none, some (Error.errorf "decrypt: response corrupted in-transit")) :=
  ⟨((integrity_gating sampleExt "k" [1]).1 [254]).mpr
      ⟨rfl, { Ciphertext := [254], CiphertextCrc32C := some (crc32c [254] : Int),
              VerifiedPlaintextCrc32C := true }, rfl, rfl, rfl, rfl⟩,
    ((integrity_gating sampleExt "k" [254]).2.2.1 [1]).mpr
      ⟨rfl, { Plaintext := [1], PlaintextCrc32C := some (crc32c [1] : Int) }, rfl, rfl, rfl⟩,
    (integrity_gating extWrongChecksum "k" [1]).2.1
      (fun _ r hr _ hnone => by
        cases hr
        cases hnone),
    rfl, rfl⟩

/-! ## The file locator -/

theorem range_find_succ (p : Nat → Bool) (n : Nat) :
    (List.range (n + 1)).find? p =
      if p 0 then some 0 else ((List.range n).find? (fun k => p (k + 1))).map Nat.succ := by
  rw [List.range_succ_eq_map, List.find?_cons, List.find?_map]
  cases p 0 <;> rfl

theorem range_map_succ {β : Type} (g : Nat → β) (n : Nat) :
    (List.range (n + 1)).map g = g 0 :: (List.range n).map (fun i => g (i + 1)) := by
  rw [List.range_succ_eq_map, List.map_cons, List.map_map]
  rfl

/-- The loop, with `n` iterations left, stops at the first of the next `n`
levels that has the file. -/
theorem searchLoop_eq (stat : String → Option Error) (join : String → String → String) :
    ∀ (n : Nat) (d : String) (checked : List String),
      searchLoop stat join n d checked =
        match (List.range n).find?
            (fun k => (stat (join (ancestor join d k) Filename)).isNone) with
        | some k =>
          (join (ancestor join d k) Filename,
            checked ++ (List.range (k + 1)).map (fun i => join (ancestor join d i) Filename))
        | none =>
          (Filename, checked ++ (List.range n).map (fun i => join (ancestor join d i) Filename)) := by
  intro n
  induction n with
  | zero => intro d checked; simp [searchLoop]
  | succ n ih =>
    intro d checked
    rw [range_find_succ]
    unfold searchLoop
    cases hs : stat (join d Filename) with
    | none => simp [ancestor, hs, List.range_succ]
    | some e =>
      simp only [ancestor, hs, Option.isNone_some, Bool.false_eq_true, if_false]
      rw [ih]
      cases hf : (List.range n).find?
          (fun k => (stat (join (ancestor join (join d "..") k) Filename)).isNone) with
      | none =>
        simp only [Option.map_none']
        rw [range_map_succ]
        simp [ancestor]
      | some k =>
        simp only [Option.map_some']
        rw [range_map_succ (fun i => join (ancestor join d i) Filename) (k + 1)]
        simp [ancestor]

theorem osOpenFile_files (x : Ext) (w : World) (name : String) :
    (osOpenFile x w name).1.files = w.files := by
  unfold osOpenFile
  split
  · rfl
  · split <;> rfl

theorem ioReadAll_files (x : Ext) (w : World) (f : File) :
    (ioReadAll x w f).1.files = w.files := by
  unfold ioReadAll
  split
  · split <;> rfl
  · rfl

theorem fileClose_files (x : Ext) (w : World) (f : File) :
    (fileClose x w f).1.files = w.files := by
  unfold fileClose
  split <;> rfl

theorem fileSync_files (x : Ext) (w : World) (f : File) :
    (fileSync x w f).files = w.files := by
  unfold fileSync
  split <;> rfl

theorem readFile_files (x : Ext) (w : World) (filename : String) :
    (readFile x w filename).1.files = w.files := by
  unfold readFile
  split
  · rfl
  · split
    · rename_i h; rw [← osOpenFile_files x w filename, h]
    · rename_i w1 f h
      have h1 : w1.files = w.files := by rw [← osOpenFile_files x w filename, h]
      split
      · rename_i h2; rw [← h1, ← ioReadAll_files x w1 f, h2]
      · rename_i h2; rw [← h1, ← ioReadAll_files x w1 f, h2]

/-- The method `Load` changes no file. -/
theorem Load_files (x : Ext) (envi : Envi) (w : World) :
    (envi.Load x w).1.files = w.files := by
  unfold Envi.Load
  split
  · rfl
  · dsimp only
    split
    · rename_i h; rw [← readFile_files x w _, h]
    · rename_i h
      split
      · rw [← readFile_files x w _, h]
      · rw [← readFile_files x w _, h]
      · show _ = w.files
        rw [← readFile_files x w _, h]

theorem osStat_isNone (w : World) (p : String) : (osStat w p).isNone = (w.files p).isSome := by
  unfold osStat
  cases w.files p <;> rfl

/-- C9: for every starting directory, every `path.Join` and every answer of
`fs.Stat`, the search of `Load` checks the starting directory first and then
its successive parents, stops at the first in which `envi.yaml` is found,
makes at most 100 checks, and settles on the file of that nearest directory,
or on the bare name `envi.yaml` when none of the 100 has it; on every file
system state, where `fs.Stat` succeeds exactly on the paths that exist, that is
the nearest directory in which the file exists. The search is a total function
that returns a path and no error, and `Load` as a whole changes no file. -/
theorem locate_nearest (stat : String → Option Error) (join : String → String → String)
    (envDir : String) :
    locate stat join envDir =
        (nearestFile (fun p => (stat p).isNone) join envDir,
          checksAllowed (fun p => (stat p).isNone) join envDir) ∧
      (locate stat join envDir).2.length ≤ 100 ∧
      (∀ w : World, locate (osStat w) join envDir =
        (nearestFile (fun p => (w.files p).isSome) join envDir,
          checksAllowed (fun p => (w.files p).isSome) join envDir)) ∧
      ∀ (x : Ext) (envi : Envi) (w : World), (envi.Load x w).1.files = w.files := by
  have h : ∀ st : String → Option Error, locate st join envDir =
      (nearestFile (fun p => (st p).isNone) join envDir,
        checksAllowed (fun p => (st p).isNone) join envDir) := by
    intro st
    unfold locate nearestFile checksAllowed nearestLevel
    rw [searchLoop_eq]
    simp only [maxDepth, Filename]
    cases (List.range 100).find?
        (fun k => (st (join (ancestor join envDir k) "envi.yaml")).isNone) with
    | none => simp
    | some k => simp
  refine ⟨h stat, ?_, ?_, Load_files⟩
  · rw [h]
    unfold checksAllowed nearestLevel
    cases hf : (List.range 100).find?
        (fun k => (stat (join (ancestor join envDir k) "envi.yaml")).isNone) with
    | none => simp
    | some k =>
      have hk : k ∈ List.range 100 := List.mem_of_find?_eq_some hf
      have hk1 : k < 100 := List.mem_range.mp hk
      simp only [List.length_map, List.length_range]
      omega
  · intro w
    rw [h]
    have hfun : (fun p => (osStat w p).isNone) = (fun p => (w.files p).isSome) :=
      funext (osStat_isNone w)
    rw [hfun]

/-! ## The edit workflow -/

/-- C8, the failing inputs: (1) the editor exits with a failure: `edit`
returns its error and the temporary file, holding the decrypted text, is still
there; (2) the service refuses to decrypt: `edit` returns the error of `Load`
and the descriptor `Load` opened on the configuration file is still open. -/
theorem edit_skips_cleanup :
    (∃ w, edit extEditorFails sampleWorld =
        Run.ret (w, some (Error.wrap "failure to edit envi.yaml file: %w"
          (Error.lib "exit status 1"))) ∧
      w.files "/tmp/envi.yaml.tmp" = some [1] ∧ w.opened = []) ∧
    (∃ w, edit extDecryptFails sampleWorld =
        Run.ret (w, some (Error.wrap "failed to decrypt ciphertext: %v"
          (Error.lib "rpc error: unavailable"))) ∧
      w.files "/tmp/envi.yaml.tmp" = none ∧ w.opened = [3]) :=
  ⟨⟨_, rfl, rfl, rfl⟩, ⟨_, rfl, rfl, rfl⟩⟩

theorem Quiet.refl (tmp : String) (w : World) : Quiet tmp w w := ⟨fun _ _ => rfl, rfl⟩

theorem Quiet.trans {tmp : String} {w w1 w2 : World} (h1 : Quiet tmp w w1)
    (h2 : Quiet tmp w1 w2) : Quiet tmp w w2 :=
  ⟨fun p hp => (h2.1 p hp).trans (h1.1 p hp), h2.2.trans h1.2⟩

theorem osCreate_quiet (x : Ext) (w : World) (name : String) :
    Quiet name w (osCreate x w name).1 := by
  unfold osCreate
  split
  · exact ⟨fun _ _ => rfl, rfl⟩
  · refine ⟨fun p hp => ?_, rfl⟩
    simp [World.tick, hp]

theorem osCreate_name {x : Ext} {w w1 : World} {name : String} {f : File}
    (h : osCreate x w name = (w1, Except.ok f)) : f.name = name := by
  unfold osCreate at h
  split at h
  · simp at h
  · simp only [Prod.mk.injEq, Except.ok.injEq] at h
    rw [← h.2]

theorem osOpenFile_quiet (tmp : String) (x : Ext) (w : World) (name : String) :
    Quiet tmp w (osOpenFile x w name).1 := by
  unfold osOpenFile
  split
  · exact ⟨fun _ _ => rfl, rfl⟩
  · split <;> exact ⟨fun _ _ => rfl, rfl⟩

theorem ioReadAll_quiet (tmp : String) (x : Ext) (w : World) (f : File) :
    Quiet tmp w (ioReadAll x w f).1 := by
  unfold ioReadAll
  split
  · split <;> exact ⟨fun _ _ => rfl, rfl⟩
  · exact ⟨fun _ _ => rfl, rfl⟩

theorem fileWrite_quiet (x : Ext) (w : World) (f : File) (b : Bytes) :
    Quiet f.name w (fileWrite x w f b).1 := by
  unfold fileWrite
  split
  · split
    · exact ⟨fun _ _ => rfl, rfl⟩
    · refine ⟨fun p hp => ?_, rfl⟩
      simp [World.tick, hp]
  · exact ⟨fun _ _ => rfl, rfl⟩

theorem fileSync_quiet (tmp : String) (x : Ext) (w : World) (f : File) :
    Quiet tmp w (fileSync x w f) := by
  unfold fileSync
  split <;> exact ⟨fun _ _ => rfl, rfl⟩

theorem fileClose_quiet (tmp : String) (x : Ext) (w : World) (f : File) :
    Quiet tmp w (fileClose x w f).1 := by
  unfold fileClose
  split <;> exact ⟨fun _ _ => rfl, rfl⟩

theorem osRemove_quiet (x : Ext) (w : World) (name : String) :
    Quiet name w (osRemove x w name).1 := by
  unfold osRemove
  split
  · exact ⟨fun _ _ => rfl, rfl⟩
  · split
    · exact ⟨fun _ _ => rfl, rfl⟩
    · refine ⟨fun p hp => ?_, rfl⟩
      simp [World.tick, hp]

theorem startEditor_quiet (x : Ext) (w : World) (f : File) :
    Quiet f.name w (startEditor x w f).1 := by
  unfold startEditor
  split
  · refine ⟨fun p hp => ?_, rfl⟩
    simp [hp]
  · exact ⟨fun _ _ => rfl, rfl⟩

theorem fileTruncate_trace (x : Ext) (w : World) (f : File) :
    (fileTruncate x w f).1.trace = w.trace := by
  unfold fileTruncate
  split
  · split <;> rfl
  · rfl

theorem fileWriteAt_trace (x : Ext) (w : World) (f : File) (b : Bytes) :
    (fileWriteAt x w f b).1.trace = w.trace := by
  unfold fileWriteAt
  split
  · split <;> rfl
  · rfl

theorem readFile_quiet (tmp : String) (x : Ext) (w : World) (filename : String) :
    Quiet tmp w (readFile x w filename).1 := by
  unfold readFile
  split
  · exact Quiet.refl _ _
  · split
    · rename_i h
      have := osOpenFile_quiet tmp x w filename
      rwa [h] at this
    · rename_i w1 f h
      have h1 := osOpenFile_quiet tmp x w filename
      rw [h] at h1
      have h2 := ioReadAll_quiet tmp x w1 f
      split <;> rename_i h3 <;> rw [h3] at h2 <;> exact h1.trans h2

theorem Load_quiet (tmp : String) (x : Ext) (envi : Envi) (w : World) :
    Quiet tmp w (envi.Load x w).1 := by
  unfold Envi.Load
  split
  · exact Quiet.refl _ _
  · dsimp only
    have h1 := readFile_quiet tmp x w (locate (osStat w) x.pathJoin x.callerDir).1
    split
    · rename_i h; rwa [h] at h1
    · rename_i h
      rw [h] at h1
      split
      · exact h1
      · exact h1
      · exact h1

theorem fileSync_trace (x : Ext) (w : World) (f : File) :
    (fileSync x w f).trace = w.trace := (fileSync_quiet "" x w f).2

theorem fileClose_trace (x : Ext) (w : World) (f : File) :
    (fileClose x w f).1.trace = w.trace := (fileClose_quiet "" x w f).2

/-- Every call of `Save` that gets through the sorts has added `save`, and
nothing else, to the ghost record. -/
theorem Save_trace {x : Ext} {envi envi1 : Envi} {f : File} {w w1 : World}
    {r : Run (Option Error)}
    (h : envi.Save x f w = Run.ret (w1, envi1, r)) : w1.trace = w.trace ++ [Event.save] := by
  unfold Envi.Save at h
  dsimp only at h
  split at h
  · cases h
  · split at h
    · cases h
    · split at h
      · simp only [Run.ret.injEq, Prod.mk.injEq] at h
        rw [← h.1]
      · simp only [Run.ret.injEq, Prod.mk.injEq] at h
        rw [← h.1]
      · have e1 := fileTruncate_trace x { w with trace := w.trace ++ [Event.save] } f
        split at h
        · rename_i ht
          simp only [Run.ret.injEq, Prod.mk.injEq] at h
          rw [ht] at e1
          rw [← h.1]; exact e1
        · rename_i wt ht
          rw [ht] at e1
          have e2 := fileWriteAt_trace x wt f ((‹Option Bytes›).getD [])
          split at h
          · rename_i hw
            simp only [Run.ret.injEq, Prod.mk.injEq] at h
            rw [hw] at e2
            rw [← h.1]; exact e2.trans e1
          · rename_i ww hw
            rw [hw] at e2
            have e3 := fileClose_trace x (fileSync x ww f) f
            rw [fileSync_trace] at e3
            split at h
            · rename_i hc
              simp only [Run.ret.injEq, Prod.mk.injEq] at h
              rw [hc] at e3
              rw [← h.1]; exact e3.trans (e2.trans e1)
            · rename_i hc
              simp only [Run.ret.injEq, Prod.mk.injEq] at h
              rw [hc] at e3
              rw [← h.1]; exact e3.trans (e2.trans e1)

/-- Lines 137-151 of `edit`: either the text read back failed to decode, and
then the error is that of the decoder, no file has changed and the ghost record
has gained only that failure; or the ghost record has gained no failure to
decode. -/
theorem editValidateSave_cases {x : Ext} {cf nf : File} {modEnvi : Envi} {w w1 : World}
    {r : Option Error} (h : editValidateSave x cf nf modEnvi w = Run.ret (w1, r)) :
    (∃ msg, r = some (Error.lib msg) ∧ w1.files = w.files ∧
        w1.trace = w.trace ++ [Event.decodeFailed msg]) ∨
      (∀ m, Event.decodeFailed m ∈ w1.trace → Event.decodeFailed m ∈ w.trace) := by
  unfold editValidateSave at h
  have hq := ioReadAll_quiet "" x w nf
  have hf := ioReadAll_files x w nf
  split at h
  · rename_i hr
    simp only [Run.ret.injEq, Prod.mk.injEq] at h
    rw [hr] at hq
    right
    intro m hm
    rw [← h.1, hq.2] at hm
    exact hm
  · rename_i wr data hr
    rw [hr] at hq hf
    split at h
    · rename_i msg _ hu
      simp only [Run.ret.injEq, Prod.mk.injEq] at h
      left
      refine ⟨msg, h.2.symm, ?_, ?_⟩
      · rw [← h.1]; exact hf
      · rw [← h.1]; simp only; rw [hq.2]
    · right
      intro m hm
      split at h
      · cases h
      · cases h
      · rename_i hs
        simp only [Run.ret.injEq, Prod.mk.injEq] at h
        rw [← h.1, Save_trace hs, hq.2] at hm
        simpa using hm
      · rename_i hs
        simp only [Run.ret.injEq, Prod.mk.injEq] at h
        rw [← h.1, Save_trace hs, hq.2] at hm
        simpa using hm

theorem Quiet.keeps {tmp : String} {w w1 : World} (h : Quiet tmp w w1) :
    ∀ m, Event.decodeFailed m ∈ w1.trace → Event.decodeFailed m ∈ w.trace := by
  intro m hm
  rwa [h.2] at hm

theorem editDeferredTmp_spec (x : Ext) (nf : File) (tmp : String) (w : World)
    (err : Option Error) :
    Quiet tmp w (editDeferredTmp x nf tmp w err).1 ∧
      ∃ c, (editDeferredTmp x nf tmp w err).2 = x.deferrorAs c err := by
  unfold editDeferredTmp
  exact ⟨(fileClose_quiet tmp x w nf).trans (osRemove_quiet x _ tmp), _, rfl⟩

/-- Lines 106-151 of `edit` with the calls deferred there: either the text
read back failed to decode, and then the error is that of the decoder as
`deferror.As` passes it on, only the temporary file has changed and the ghost
record has gained only that failure; or the ghost record has gained no failure
to decode. -/
theorem editBody_cases {x : Ext} {cf : File} {currentEnvi modEnvi : Envi} {tmp : String}
    {w w1 : World} {r : Option Error}
    (h : editBody x cf currentEnvi modEnvi tmp w = Run.ret (w1, r)) :
    (∃ msg c, r = x.deferrorAs c (some (Error.lib msg)) ∧
        (∀ p, p ≠ tmp → w1.files p = w.files p) ∧
        w1.trace = w.trace ++ [Event.decodeFailed msg]) ∨
      (∀ m, Event.decodeFailed m ∈ w1.trace → Event.decodeFailed m ∈ w.trace) := by
  unfold editBody at h
  have q1 := osCreate_quiet x w tmp
  split at h
  · rename_i hc
    rw [hc] at q1
    simp only [Run.ret.injEq, Prod.mk.injEq] at h
    right; rw [← h.1]; exact q1.keeps
  · rename_i wc nf hc
    rw [hc] at q1
    have hn := osCreate_name hc
    split at h
    · simp only [Run.ret.injEq, Prod.mk.injEq] at h
      right; rw [← h.1]; exact q1.keeps
    · rename_i currentBytes _
      have q2 := fileWrite_quiet x wc nf currentBytes
      rw [hn] at q2
      split at h
      · rename_i hw
        rw [hw] at q2
        simp only [Run.ret.injEq, Prod.mk.injEq] at h
        right; rw [← h.1]; exact (q1.trans q2).keeps
      · rename_i ww hw
        rw [hw] at q2
        dsimp only at h
        have q4 := (fileSync_quiet tmp x ww nf).trans (fileClose_quiet tmp x (fileSync x ww nf) nf)
        split at h
        · rename_i hcl
          rw [hcl] at q4
          simp only [Run.ret.injEq, Prod.mk.injEq] at h
          right; rw [← h.1]; exact ((q1.trans q2).trans q4).keeps
        · rename_i wcl hcl
          rw [hcl] at q4
          have q5 := startEditor_quiet x wcl nf
          rw [hn] at q5
          split at h
          · rename_i he
            rw [he] at q5
            simp only [Run.ret.injEq, Prod.mk.injEq] at h
            right; rw [← h.1]; exact (((q1.trans q2).trans q4).trans q5).keeps
          · rename_i we he
            rw [he] at q5
            have q6 := osOpenFile_quiet tmp x we nf.name
            split at h
            · rename_i ho
              rw [ho] at q6
              simp only [Run.ret.injEq, Prod.mk.injEq] at h
              right; rw [← h.1]
              exact ((((q1.trans q2).trans q4).trans q5).trans q6).keeps
            · rename_i wo nf2 ho
              rw [ho] at q6
              have q : Quiet tmp w wo := (((q1.trans q2).trans q4).trans q5).trans q6
              split at h
              · cases h
              · rename_i wv err hv
                obtain ⟨q7, c, hcc⟩ := editDeferredTmp_spec x nf2 tmp wv err
                simp only [Run.ret.injEq] at h
                rw [h] at q7 hcc
                dsimp only at q7 hcc
                rcases editValidateSave_cases hv with ⟨msg, hr, hfiles, htr⟩ | hno
                · left
                  refine ⟨msg, c, ?_, ?_, ?_⟩
                  · rw [hcc, hr]
                  · intro p hp
                    rw [q7.1 p hp, hfiles, q.1 p hp]
                  · rw [q7.2, htr, q.2]
                · right
                  intro m hm
                  exact q.keeps m (hno m (q7.keeps m hm))

/-- When `Load` returns no error it hands back the open file, so the third
case of `edit` is never taken. -/
theorem Load_ok_file {x : Ext} {envi envi1 : Envi} {w w1 : World} {f : Option File}
    (h : envi.Load x w = (w1, envi1, f, Run.ret none)) : ∃ cf, f = some cf := by
  unfold Envi.Load at h
  split at h
  · simp at h
  · dsimp only at h
    split at h
    · simp at h
    · rename_i hr
      have hf : ∃ cf, (‹Option File›) = some cf := by
        unfold readFile at hr
        split at hr
        · simp at hr
        · split at hr
          · simp at hr
          · split at hr
            · simp at hr
            · simp only [Prod.mk.injEq] at hr
              exact ⟨_, hr.2.2.1.symm⟩
      split at h
      · simp at h
      · simp at h
      · simp only [Prod.mk.injEq] at h
        obtain ⟨cf, hcf⟩ := hf
        exact ⟨cf, by rw [← h.2.2.1, hcf]⟩

/-- The function `edit`: the same alternative for the whole run. -/
theorem edit_cases {x : Ext} {w w1 : World} {r : Option Error}
    (h : edit x w = Run.ret (w1, r)) :
    (∃ msg c c2, r = x.deferrorAs c2 (x.deferrorAs c (some (Error.lib msg))) ∧
        (∀ p, p ≠ x.pathJoin x.tempDir (Filename ++ ".tmp") → w1.files p = w.files p) ∧
        w1.trace = w.trace ++ [Event.decodeFailed msg]) ∨
      (∀ m, Event.decodeFailed m ∈ w1.trace → Event.decodeFailed m ∈ w.trace) := by
  unfold edit at h
  dsimp only at h
  have q1 := Load_quiet (x.pathJoin x.tempDir (Filename ++ ".tmp")) x NewEnvi w
  split at h
  · cases h
  · rename_i hl
    rw [hl] at q1
    simp only [Run.ret.injEq, Prod.mk.injEq] at h
    right; rw [← h.1]; exact q1.keeps
  · rename_i hl
    rw [hl] at q1
    simp only [Run.ret.injEq, Prod.mk.injEq] at h
    right; rw [← h.1]; exact q1.keeps
  · rename_i wl currentEnvi1 cf hl
    rw [hl] at q1
    split at h
    · cases h
    · rename_i wb err hb
      have q3 := fileClose_quiet (x.pathJoin x.tempDir (Filename ++ ".tmp")) x wb cf
      simp only [Run.ret.injEq, Prod.mk.injEq] at h
      rw [h.1] at q3
      rcases editBody_cases hb with ⟨msg, c, hr, hfiles, htr⟩ | hno
      · left
        refine ⟨msg, c, (fileClose x wb cf).2, ?_, ?_, ?_⟩
        · rw [← h.2, hr]
        · intro p hp
          rw [q3.1 p hp, hfiles p hp, q1.1 p hp]
        · rw [q3.2, htr, q1.2]
      · right
        intro m hm
        exact q1.keeps m (hno m (q3.keeps m hm))

/-- C5: in every run of `edit` that returns and in which the temporary file
read back failed to decode, `Save` was not called, the configuration file the
search of `Load` settled on holds the bytes it held before the run, and the
error returned is the one of the decoder. The two side conditions name what
the model leaves open: `deferror.As` does not replace an error that is already
set, and the temporary file is not the configuration file. -/
theorem edit_aborts_on_decode_failure (x : Ext) (w w1 : World) (r : Option Error)
    (msg : String) (hstart : w.trace = [])
    (hrun : edit x w = Run.ret (w1, r))
    (hdec : Event.decodeFailed msg ∈ w1.trace)
    (hAs : ∀ c e, x.deferrorAs c (some e) = some e)
    (hne : (locate (osStat w) x.pathJoin x.callerDir).1 ≠
      x.pathJoin x.tempDir (Filename ++ ".tmp")) :
    r = some (Error.lib msg) ∧ Event.save ∉ w1.trace ∧
      w1.files (locate (osStat w) x.pathJoin x.callerDir).1 =
        w.files (locate (osStat w) x.pathJoin x.callerDir).1 := by
  rcases edit_cases hrun with ⟨m, c, c2, hr, hfiles, htr⟩ | hno
  · rw [hstart, List.nil_append] at htr
    rw [htr, List.mem_singleton] at hdec
    cases hdec
    refine ⟨?_, ?_, hfiles _ hne⟩
    · rw [hr, hAs, hAs]
    · rw [htr]; simp
  · have := hno msg hdec
    rw [hstart] at this
    cases this

/-- C5, witness: the editor leaves text that does not decode; `edit` returns
the decoder's error, the configuration file is untouched, and no `Save`. -/
theorem edit_aborts_on_decode_failure_witness :
    ∃ w1, edit extEditorGarbles sampleWorld =
        Run.ret (w1, some (Error.lib "yaml: unmarshal errors")) ∧
      Event.decodeFailed "yaml: unmarshal errors" ∈ w1.trace ∧
      Event.save ∉ w1.trace ∧
      w1.files (locate (osStat sampleWorld) sampleJoin "/app/cmd").1 = some [254] :=
  ⟨_, rfl, by decide,
    (edit_aborts_on_decode_failure extEditorGarbles sampleWorld _ _ "yaml: unmarshal errors"
      rfl rfl (by decide) (fun _ _ => rfl) (by decide)).2⟩

/-! ## Initialisation -/

theorem encryptSymmetric_error {x : Ext} {name : String} {data : Bytes} {d : Option Bytes}
    {e : Error} (h : encryptSymmetric x name data = Run.ret (d, some e)) :
    e ≠ Error.errorAlreadyInitialized := by
  unfold encryptSymmetric at h
  split at h
  · simp only [Run.ret.injEq, Prod.mk.injEq, Option.some.injEq] at h
    rw [← h.2]; simp
  · dsimp only at h
    split at h
    · simp only [Run.ret.injEq, Prod.mk.injEq, Option.some.injEq] at h
      rw [← h.2]; simp
    · split_ifs at h
      · simp only [Run.ret.injEq, Prod.mk.injEq, Option.some.injEq] at h
        rw [← h.2]; simp
      · split at h
        · cases h
        · split_ifs at h <;> simp only [Run.ret.injEq, Prod.mk.injEq, Option.some.injEq] at h
          · rw [← h.2]; simp
          · exact absurd h.2 (by simp)

theorem encryptSymmetric_ok {x : Ext} {name : String} {data : Bytes} {d : Option Bytes}
    (h : encryptSymmetric x name data = Run.ret (d, none)) : ∃ c, d = some c := by
  unfold encryptSymmetric at h
  split at h
  · simp at h
  · dsimp only at h
    split at h
    · simp at h
    · split_ifs at h
      · simp at h
      · split at h
        · cases h
        · split_ifs at h <;> simp only [Run.ret.injEq, Prod.mk.injEq] at h
          · exact absurd h.2 (by simp)
          · exact ⟨_, h.1.symm⟩

theorem Marshal_error {x : Ext} {envi : Envi} {d : Option Bytes} {e : Error}
    (h : envi.Marshal x = Run.ret (d, some e)) : e ≠ Error.errorAlreadyInitialized := by
  unfold Envi.Marshal at h
  split at h
  · simp only [Run.ret.injEq, Prod.mk.injEq, Option.some.injEq] at h
    rw [← h.2]; simp
  · split at h
    · simp only [Run.ret.injEq, Prod.mk.injEq, Option.some.injEq] at h
      rw [← h.2]; simp
    · exact encryptSymmetric_error h

theorem Marshal_ok {x : Ext} {envi : Envi} {d : Option Bytes}
    (h : envi.Marshal x = Run.ret (d, none)) : ∃ c, d = some c := by
  unfold Envi.Marshal at h
  split at h
  · simp at h
  · split at h
    · simp at h
    · exact encryptSymmetric_ok h

theorem osCreate_error {x : Ext} {w w1 : World} {name : String} {e : Error}
    (h : osCreate x w name = (w1, Except.error e)) : e ≠ Error.errorAlreadyInitialized := by
  unfold osCreate at h
  split at h
  · simp only [Prod.mk.injEq, Except.error.injEq] at h
    rw [← h.2]; simp
  · simp at h

theorem fileWrite_error {x : Ext} {w w1 : World} {f : File} {b : Bytes} {e : Error}
    (h : fileWrite x w f b = (w1, some e)) : e ≠ Error.errorAlreadyInitialized := by
  unfold fileWrite at h
  split at h
  · split at h
    · simp only [Prod.mk.injEq, Option.some.injEq] at h
      rw [← h.2]; simp
    · simp at h
  · simp only [Prod.mk.injEq, Option.some.injEq] at h
    rw [← h.2]; simp [ErrClosed]

theorem fileClose_error {x : Ext} {w w1 : World} {f : File} {e : Error}
    (h : fileClose x w f = (w1, some e)) : e ≠ Error.errorAlreadyInitialized := by
  unfold fileClose at h
  split at h
  · simp only [Prod.mk.injEq] at h
    cases hf : x.faults w.clock with
    | none => rw [hf] at h; simp at h
    | some m =>
      rw [hf] at h
      simp only [Option.map_some', Option.some.injEq] at h
      rw [← h.2]; simp
  · simp only [Prod.mk.injEq, Option.some.injEq] at h
    rw [← h.2]; simp [ErrClosed]

/-- The function `initYaml` reports `errorAlreadyInitialized` exactly when
`Load` returns no error. -/
theorem initYaml_already_iff (x : Ext) (w : World) :
    (initYaml x w).2 = Run.ret (some Error.errorAlreadyInitialized) ↔
      (NewEnvi.Load x w).2.2.2 = Run.ret none := by
  unfold initYaml
  dsimp only
  split
  · rename_i hl
    rw [hl]
    simp
  · rename_i hl
    rw [hl]
    simp
  · rename_i e hl
    rw [hl]
    simp only [Run.ret.injEq, reduceCtorEq, iff_false]
    split
    · simp
    · rename_i hm
      simp only [Run.ret.injEq, Option.some.injEq]
      exact Marshal_error hm
    · split
      · rename_i hc
        simp only [Run.ret.injEq, Option.some.injEq]
        exact osCreate_error hc
      · split
        · rename_i hw
          simp only [Run.ret.injEq, Option.some.injEq]
          exact fileWrite_error hw
        · split
          · rename_i hcl
            simp only [Run.ret.injEq, Option.some.injEq]
            exact fileClose_error hcl
          · simp

theorem readFile_missing (x : Ext) (w : World) (name : String) (h : w.files name = none) :
    readFile x w name = (w, none, none, some ENOENT) := by
  have hs : osStat w name = some ENOENT := by
    unfold osStat
    rw [h]
  unfold readFile
  rw [hs]

/-- When `Load` returns no error the key identifier is set and the file the
search settled on exists. -/
theorem Load_ok_exists {x : Ext} {envi : Envi} {w : World}
    (h : (envi.Load x w).2.2.2 = Run.ret none) :
    x.resourceID.length ≠ 0 ∧ w.files (locate (osStat w) x.pathJoin x.callerDir).1 ≠ none := by
  unfold Envi.Load at h
  split at h
  · simp at h
  · rename_i hk
    refine ⟨hk, ?_⟩
    dsimp only at h
    intro hnone
    rw [readFile_missing x w _ hnone] at h
    simp at h

theorem initYaml_quiet (x : Ext) (w : World) : Quiet Filename w (initYaml x w).1 := by
  unfold initYaml
  dsimp only
  have q1 := Load_quiet Filename x NewEnvi w
  split
  · rename_i hl
    rw [hl] at q1
    exact q1
  · rename_i hl
    rw [hl] at q1
    exact q1
  · rename_i wl envi1 _ e hl
    rw [hl] at q1
    split
    · exact q1
    · exact q1
    · rename_i data _
      have q2 := osCreate_quiet x wl Filename
      split
      · rename_i hc
        rw [hc] at q2
        exact q1.trans q2
      · rename_i wc f hc
        rw [hc] at q2
        have q3 := fileWrite_quiet x wc f (data.getD [])
        rw [osCreate_name hc] at q3
        split
        · rename_i hw
          rw [hw] at q3
          exact (q1.trans q2).trans q3
        · rename_i ww hw
          rw [hw] at q3
          have q4 := (fileSync_quiet Filename x ww f).trans
            (fileClose_quiet Filename x (fileSync x ww f) f)
          split
          · rename_i hcl
            rw [hcl] at q4
            exact ((q1.trans q2).trans q3).trans q4
          · rename_i hcl
            rw [hcl] at q4
            exact ((q1.trans q2).trans q3).trans q4

theorem initYaml_loaded {x : Ext} {w : World} (h : (NewEnvi.Load x w).2.2.2 = Run.ret none) :
    (initYaml x w).1.files = w.files := by
  unfold initYaml
  dsimp only
  split
  · rename_i hl
    rw [hl] at h
    simp at h
  · rename_i hl
    rw [← Load_files x NewEnvi w, hl]
  · rename_i hl
    rw [hl] at h
    simp at h

theorem initYaml_no_key {x : Ext} (w : World) (h : x.resourceID.length = 0) :
    initYaml x w = (w, Run.ret (some Error.errResourceID)) := by
  unfold initYaml Envi.Load Envi.Marshal
  simp [h]

/-- When no file exists at the path the search settled on and `initYaml`
returns nil, the file `envi.yaml` holds what `Marshal` returned for the
document of `NewEnvi`. -/
theorem initYaml_creates {x : Ext} {w : World}
    (hnone : w.files (locate (osStat w) x.pathJoin x.callerDir).1 = none)
    (hret : (initYaml x w).2 = Run.ret none) :
    ∃ c, NewEnvi.Marshal x = Run.ret (some c, none) ∧
      (initYaml x w).1.files Filename = some c := by
  by_cases hk : x.resourceID.length = 0
  · rw [initYaml_no_key w hk] at hret
    simp at hret
  · have hl : NewEnvi.Load x w = (w, NewEnvi, none, Run.ret (some ENOENT)) := by
      unfold Envi.Load
      simp only [hk, if_false]
      rw [readFile_missing x w _ hnone]
    unfold initYaml at hret ⊢
    dsimp only at hret ⊢
    rw [hl] at hret ⊢
    dsimp only at hret ⊢
    split at hret
    · simp at hret
    · simp at hret
    · rename_i data hm
      obtain ⟨c, rfl⟩ := Marshal_ok hm
      refine ⟨c, hm, ?_⟩
      unfold osCreate at hret ⊢
      cases hf1 : x.faults w.clock with
      | some e => rw [hf1] at hret; simp at hret
      | none =>
        rw [hf1] at hret
        simp only [Option.getD_some] at hret ⊢
        unfold fileWrite at hret ⊢
        simp only [World.tick, List.mem_cons, true_or, if_true] at hret ⊢
        cases hf2 : x.faults (w.clock + 1) with
        | some e => rw [hf2] at hret; simp at hret
        | none =>
          rw [hf2] at hret
          simp only at hret ⊢
          have hfiles : ∀ (w0 : World) (f0 : File),
              (match fileClose x (fileSync x w0 f0) f0 with
                | (w3, some err) => (w3, Run.ret (some err))
                | (w5, none) => (w5, Run.ret none)).1.files = w0.files := by
            intro w0 f0
            have := fileClose_files x (fileSync x w0 f0) f0
            rw [fileSync_files] at this
            split <;> rename_i hq <;> rw [hq] at this <;> exact this
          rw [hfiles]
          simp

/-- C6, counterexample: (1) the configuration file exists and the key
identifier is not set: `initYaml` fails with `errResourceID`, not with
`errorAlreadyInitialized`. (2) an `envi.yaml` exists in the working directory
and the service refuses to decrypt it: `initYaml` returns nil and the file has
been replaced by a new one. -/
theorem initYaml_existing_file_not_reported :
    (locate (osStat sampleWorld) extNoKey.pathJoin extNoKey.callerDir).1 = "/app/envi.yaml" ∧
      sampleWorld.files "/app/envi.yaml" = some [254] ∧
      initYaml extNoKey sampleWorld = (sampleWorld, Run.ret (some Error.errResourceID)) ∧
      worldForeignFile.files "envi.yaml" = some [7, 7, 7] ∧
      (initYaml extDecryptFails worldForeignFile).2 = Run.ret none ∧
      (initYaml extDecryptFails worldForeignFile).1.files "envi.yaml" = some [254] :=
  ⟨by decide, rfl, rfl, rfl, rfl, rfl⟩

/-- C6, amended: `initYaml` fails with `errorAlreadyInitialized` whenever `Load`
returns no error, and then no file is modified; it reports that error only
when the key identifier is set and a file exists at the path the search
settled on; without a key identifier it fails with `errResourceID` and changes
nothing; it never touches a file other than `envi.yaml`; and when no file
exists at the path the search settled on and it returns nil, `envi.yaml` holds
the encrypted document of `NewEnvi`. -/
theorem initYaml_guard (x : Ext) (w : World) :
    ((NewEnvi.Load x w).2.2.2 = Run.ret none →
        (initYaml x w).2 = Run.ret (some Error.errorAlreadyInitialized) ∧
        (initYaml x w).1.files = w.files) ∧
      ((initYaml x w).2 = Run.ret (some Error.errorAlreadyInitialized) →
        x.resourceID.length ≠ 0 ∧
        w.files (locate (osStat w) x.pathJoin x.callerDir).1 ≠ none) ∧
      (x.resourceID.length = 0 → initYaml x w = (w, Run.ret (some Error.errResourceID))) ∧
      (∀ p, p ≠ Filename → (initYaml x w).1.files p = w.files p) ∧
      (w.files (locate (osStat w) x.pathJoin x.callerDir).1 = none →
        (initYaml x w).2 = Run.ret none →
        ∃ c, NewEnvi.Marshal x = Run.ret (some c, none) ∧
          (initYaml x w).1.files Filename = some c) :=
  ⟨fun h => ⟨(initYaml_already_iff x w).mpr h, initYaml_loaded h⟩,
    fun h => Load_ok_exists ((initYaml_already_iff x w).mp h),
    initYaml_no_key w,
    (initYaml_quiet x w).1,
    initYaml_creates⟩

/-- C6, witness: on the sample world, whose file loads, `initYaml` reports
`errorAlreadyInitialized` and no file is modified; without a key identifier
it fails with `errResourceID`; on a world without any file it returns nil and
`envi.yaml` holds the encrypted document. -/
theorem initYaml_guard_witness :
    ((initYaml sampleExt sampleWorld).2 = Run.ret (some Error.errorAlreadyInitialized) ∧
        (initYaml sampleExt sampleWorld).1.files = sampleWorld.files) ∧
      initYaml extNoKey sampleWorld = (sampleWorld, Run.ret (some Error.errResourceID)) ∧
      ∃ c, NewEnvi.Marshal sampleExt = Run.ret (some c, none) ∧
        (initYaml sampleExt emptyWorld).1.files Filename = some c :=
  ⟨(initYaml_guard sampleExt sampleWorld).1 rfl,
    (initYaml_guard extNoKey sampleWorld).2.2.1 rfl,
    (initYaml_guard sampleExt emptyWorld).2.2.2.2 rfl rfl⟩

end EnviGo
